import Mathlib

/-!
# ai-code-review-cli — verification of the diff-to-finding pipeline

A shallow embedding of the core of the `ai-code-review-cli` repository
(`src/git-analyzer.ts`, `src/ai-reviewer.ts`, and the review-command run loop
of the CLI entry point) together with theorems settling the specification
claims about it.

JavaScript strings are modelled as `List Char` (all inputs under scrutiny are
plain BMP text, so UTF-16 surrogate behaviour never matters).  JavaScript
exceptions are modelled with `Except`: every operation of the source that can
throw is `Except`-valued, and a `try/catch` of the source becomes a `match` on
that `Except`.  External effects (the HTTP calls to the model service, the
filesystem stat, the regular-expression engine used for include/exclude
patterns) are inputs: they are passed in as explicit outcome values or
oracle functions, so every embedded operation is a pure total function.
-/

namespace AICR

/-- JavaScript string, as a list of characters. -/
abbrev JSStr := List Char

/-- Coerce a Lean string literal to the `List Char` model. -/
def jss (s : String) : JSStr := s.toList

/-! ## Generic JS string helpers -/

/-- Whitespace as recognised by `String.prototype.trim` (the code points that
actually occur in this repository's data; exotic Unicode spaces omitted). -/
def jsWsChar (c : Char) : Bool :=
  c == ' ' || c == '\t' || c == '\n' || c == '\r' || c == '\x0b' ||
  c == '\x0c' || c == '\xa0' || c == '\uFEFF'

/-- Drop leading JS whitespace. -/
def trimLeft : JSStr → JSStr
  | [] => []
  | c :: cs => if jsWsChar c then trimLeft cs else c :: cs

/-- `s.trim()`. -/
def jsTrim (s : JSStr) : JSStr :=
  ((trimLeft s.reverse).reverse |> trimLeft)

/-- `s.startsWith(pat)` on list form: `lstartsWith pat s`. -/
def lstartsWith : JSStr → JSStr → Bool
  | [], _ => true
  | _ :: _, [] => false
  | p :: ps, c :: cs => p == c && lstartsWith ps cs

/-- `s.includes(pat)`. -/
def containsSub (pat : JSStr) : JSStr → Bool
  | [] => pat.isEmpty
  | c :: cs => lstartsWith pat (c :: cs) || containsSub pat cs

/-- Index of the first occurrence of `pat` in `s` (`s.indexOf(pat)`),
`none` when absent. -/
def findSubIdx (pat : JSStr) : JSStr → Option Nat
  | [] => if pat.isEmpty then some 0 else none
  | c :: cs =>
    if lstartsWith pat (c :: cs) then some 0
    else (findSubIdx pat cs).map (· + 1)

/-- Index of the last occurrence of the character `ch` (`s.lastIndexOf(ch)`),
`none` when absent (the source's `-1`). -/
def lastIdxOf (ch : Char) (s : JSStr) : Option Nat :=
  (findSubIdx [ch] s.reverse).map (fun i => s.length - 1 - i)

/-- `s.split('\n')`. -/
def splitNlAux : JSStr → JSStr → List JSStr
  | [], cur => [cur.reverse]
  | '\n' :: cs, cur => cur.reverse :: splitNlAux cs []
  | c :: cs, cur => splitNlAux cs (c :: cur)

/-- `s.split('\n')`. -/
def splitNl (s : JSStr) : List JSStr := splitNlAux s []

/-- `parts.join(sep)`. -/
def joinWith (sep : JSStr) : List JSStr → JSStr
  | [] => []
  | [x] => x
  | x :: y :: rest => x ++ sep ++ joinWith sep (y :: rest)

/-- Decimal rendering of a natural number (JS integer-valued number →
string). -/
def natToJS (n : Nat) : JSStr := jss (Nat.repr n)

/-! ## A model of `JSON.parse`

The V8 JSON parser: values are null, booleans, decimal numbers, strings with
the standard escape set, arrays and objects.  Numbers are kept exactly as the
pair mantissa/decimal-exponent of the parsed token (no claim inspects numeric
values, so float rounding is irrelevant).  Errors distinguish the
"Unterminated string" condition (reported by V8 when the input ends inside a
string literal), because `fixIncompleteJSON` branches on that message. -/

inductive Json where
  | null
  | bool (b : Bool)
  | num (mant : Int) (exp10 : Int)
  | str (s : JSStr)
  | arr (elems : List Json)
  | obj (fields : List (JSStr × Json))
deriving Repr

mutual

def jsonBeq : Json → Json → Bool
  | .null, .null => true
  | .bool a, .bool b => a == b
  | .num m e, .num m' e' => m == m' && e == e'
  | .str a, .str b => a == b
  | .arr a, .arr b => jsonListBeq a b
  | .obj a, .obj b => jsonFieldsBeq a b
  | _, _ => false

def jsonListBeq : List Json → List Json → Bool
  | [], [] => true
  | a :: as', b :: bs => jsonBeq a b && jsonListBeq as' bs
  | _, _ => false

def jsonFieldsBeq : List (JSStr × Json) → List (JSStr × Json) → Bool
  | [], [] => true
  | (k, v) :: as', (k', v') :: bs => k == k' && jsonBeq v v' && jsonFieldsBeq as' bs
  | _, _ => false

end

mutual

theorem jsonBeq_eq : ∀ a b, jsonBeq a b = true → a = b
  | .null, .null, _ => rfl
  | .bool a, .bool b, h => by
      simp only [jsonBeq, beq_iff_eq] at h; exact h ▸ rfl
  | .num m e, .num m' e', h => by
      simp only [jsonBeq, Bool.and_eq_true, beq_iff_eq] at h
      rw [h.1, h.2]
  | .str a, .str b, h => by
      simp only [jsonBeq, beq_iff_eq] at h; exact h ▸ rfl
  | .arr a, .arr b, h => by
      simp only [jsonBeq] at h
      rw [jsonListBeq_eq a b h]
  | .obj a, .obj b, h => by
      simp only [jsonBeq] at h
      rw [jsonFieldsBeq_eq a b h]

theorem jsonListBeq_eq : ∀ a b, jsonListBeq a b = true → a = b
  | [], [], _ => rfl
  | a :: as', b :: bs, h => by
      simp only [jsonListBeq, Bool.and_eq_true] at h
      rw [jsonBeq_eq a b h.1, jsonListBeq_eq as' bs h.2]

theorem jsonFieldsBeq_eq : ∀ a b, jsonFieldsBeq a b = true → a = b
  | [], [], _ => rfl
  | (k, v) :: as', (k', v') :: bs, h => by
      simp only [jsonFieldsBeq, Bool.and_eq_true, beq_iff_eq] at h
      rw [h.1.1, jsonBeq_eq v v' h.1.2, jsonFieldsBeq_eq as' bs h.2]

end

mutual

theorem jsonBeq_refl : ∀ a, jsonBeq a a = true
  | .null => rfl
  | .bool b => by simp [jsonBeq]
  | .num m e => by simp [jsonBeq]
  | .str s => by simp [jsonBeq]
  | .arr a => by simp only [jsonBeq]; exact jsonListBeq_refl a
  | .obj a => by simp only [jsonBeq]; exact jsonFieldsBeq_refl a

theorem jsonListBeq_refl : ∀ a, jsonListBeq a a = true
  | [] => rfl
  | a :: as' => by
      simp only [jsonListBeq, Bool.and_eq_true]
      exact ⟨jsonBeq_refl a, jsonListBeq_refl as'⟩

theorem jsonFieldsBeq_refl : ∀ a, jsonFieldsBeq a a = true
  | [] => rfl
  | (k, v) :: as' => by
      simp only [jsonFieldsBeq]
      rw [jsonBeq_refl v, jsonFieldsBeq_refl as', beq_self_eq_true]
      rfl

end

instance : DecidableEq Json := fun a b =>
  if h : jsonBeq a b = true then
    .isTrue (jsonBeq_eq a b h)
  else
    .isFalse (fun he => h (he ▸ jsonBeq_refl a))

/-- JSON parse error: V8's "Unterminated string in JSON" versus every other
syntax error (the distinction `fixIncompleteJSON` tests for). -/
inductive JsonError where
  | unterminated
  | other
deriving DecidableEq, Repr

/-- JSON whitespace (`ws` of the JSON grammar). -/
def jsonWsChar (c : Char) : Bool :=
  c == ' ' || c == '\t' || c == '\n' || c == '\r'

/-- Drop JSON whitespace. -/
def skipWs : JSStr → JSStr
  | [] => []
  | c :: cs => if jsonWsChar c then skipWs cs else c :: cs

/-- Hex digit value. -/
def hexVal (c : Char) : Option Nat :=
  if '0' ≤ c ∧ c ≤ '9' then some (c.toNat - 48)
  else if 'a' ≤ c ∧ c ≤ 'f' then some (c.toNat - 87)
  else if 'A' ≤ c ∧ c ≤ 'F' then some (c.toNat - 55)
  else none

/-- Decimal digit value. -/
def digVal (c : Char) : Option Nat :=
  if '0' ≤ c ∧ c ≤ '9' then some (c.toNat - 48) else none

/-- Scan a JSON string literal body (the opening quote already consumed).
Returns the decoded characters and the rest of the input.  Reaching the end of
the input while the string is still open is the "Unterminated string"
error. -/
def parseJString : JSStr → Except JsonError (JSStr × JSStr)
  | [] => .error .unterminated
  | '"' :: cs => .ok ([], cs)
  | '\\' :: [] => .error .unterminated
  | '\\' :: 'u' :: h1 :: h2 :: h3 :: h4 :: rest =>
      (match hexVal h1, hexVal h2, hexVal h3, hexVal h4 with
       | some a, some b, some c, some d =>
         (parseJString rest).map
           (fun p => (Char.ofNat (((a * 16 + b) * 16 + c) * 16 + d) :: p.1, p.2))
       | _, _, _, _ => .error .other)
  | '\\' :: e :: cs =>
      (match (if e == '"' then some '"'
              else if e == '\\' then some '\\'
              else if e == '/' then some '/'
              else if e == 'b' then some '\x08'
              else if e == 'f' then some '\x0c'
              else if e == 'n' then some '\n'
              else if e == 'r' then some '\r'
              else if e == 't' then some '\t'
              else none) with
       | some ch => (parseJString cs).map (fun p => (ch :: p.1, p.2))
       | none => .error .other)
  | c :: cs =>
      if c.toNat < 0x20 then .error .other
      else (parseJString cs).map (fun p => (c :: p.1, p.2))

/-- Take a maximal run of decimal digits. -/
def takeDigits : JSStr → List Nat × JSStr
  | [] => ([], [])
  | c :: cs =>
    match digVal c with
    | some d => let p := takeDigits cs; (d :: p.1, p.2)
    | none => ([], c :: cs)

/-- Digits to a natural number. -/
def digitsToNat (ds : List Nat) : Nat := ds.foldl (fun a d => a * 10 + d) 0

/-- Parse the optional exponent part of a JSON number; returns the exponent
value and the rest. -/
def parseJExp (s : JSStr) : Except JsonError (Int × JSStr) :=
  match s with
  | 'e' :: rest | 'E' :: rest =>
    let sr : Bool × JSStr :=
      match rest with
      | '+' :: r => (false, r)
      | '-' :: r => (true, r)
      | r => (false, r)
    let p := takeDigits sr.2
    if p.1.isEmpty then .error .other
    else .ok ((if sr.1 then -(digitsToNat p.1 : Int) else (digitsToNat p.1 : Int)), p.2)
  | _ => .ok (0, s)

/-- Parse a JSON number token (first character is `-` or a digit).  The value
is kept as mantissa × 10 ^ exponent, exactly as written. -/
def parseJNumber (s : JSStr) : Except JsonError (Json × JSStr) :=
  let ns : Bool × JSStr := match s with | '-' :: r => (true, r) | r => (false, r)
  match (takeDigits ns.2 : List Nat × JSStr) with
  | ([], _) => .error .other
  | (d :: ds, r1) =>
    if d = 0 ∧ ds ≠ [] then .error .other
    else
      let ip := digitsToNat (d :: ds)
      let fr : List Nat × JSStr :=
        match r1 with
        | '.' :: rr => takeDigits rr
        | _ => ([], r1)
      match r1, fr with
      | '.' :: _, ([], _) => .error .other
      | _, (fds, r2) =>
        match parseJExp r2 with
        | .error e => .error e
        | .ok (ev, r3) =>
          let mant : Int := (ip * 10 ^ fds.length + digitsToNat fds : Nat)
          .ok (.num (if ns.1 then -mant else mant) (ev - fds.length), r3)

mutual

/-- Parse one JSON value (leading whitespace allowed); fuel bounds the
recursion and is in practice the input length plus one. -/
def parseJValue : Nat → JSStr → Except JsonError (Json × JSStr)
  | 0, _ => .error .other
  | Nat.succ fuel, s =>
    match skipWs s with
    | [] => .error .other
    | '"' :: cs => (parseJString cs).map (fun p => (.str p.1, p.2))
    | '{' :: cs =>
        (match skipWs cs with
         | '}' :: r => .ok (.obj [], r)
         | rest => parseJMembers fuel rest [])
    | '[' :: cs =>
        (match skipWs cs with
         | ']' :: r => .ok (.arr [], r)
         | rest => parseJElems fuel rest [])
    | 't' :: 'r' :: 'u' :: 'e' :: cs => .ok (.bool true, cs)
    | 'f' :: 'a' :: 'l' :: 's' :: 'e' :: cs => .ok (.bool false, cs)
    | 'n' :: 'u' :: 'l' :: 'l' :: cs => .ok (.null, cs)
    | c :: cs =>
        if c == '-' || (digVal c).isSome then parseJNumber (c :: cs)
        else .error .other

/-- Parse the members of a non-empty JSON object (whitespace before the first
key already skipped). -/
def parseJMembers : Nat → JSStr → List (JSStr × Json) →
    Except JsonError (Json × JSStr)
  | 0, _, _ => .error .other
  | Nat.succ fuel, s, acc =>
    match s with
    | '"' :: cs =>
      (match parseJString cs with
       | .error e => .error e
       | .ok (key, r) =>
         match skipWs r with
         | ':' :: r2 =>
           (match parseJValue fuel r2 with
            | .error e => .error e
            | .ok (v, r3) =>
              match skipWs r3 with
              | ',' :: r4 => parseJMembers fuel (skipWs r4) (acc ++ [(key, v)])
              | '}' :: r4 => .ok (.obj (acc ++ [(key, v)]), r4)
              | _ => .error .other)
         | _ => .error .other)
    | _ => .error .other

/-- Parse the elements of a non-empty JSON array (whitespace before the first
element already skipped). -/
def parseJElems : Nat → JSStr → List Json → Except JsonError (Json × JSStr)
  | 0, _, _ => .error .other
  | Nat.succ fuel, s, acc =>
    (match parseJValue fuel s with
     | .error e => .error e
     | .ok (v, r) =>
       match skipWs r with
       | ',' :: r2 => parseJElems fuel r2 (acc ++ [v])
       | ']' :: r2 => .ok (.arr (acc ++ [v]), r2)
       | _ => .error .other)

end

/-- `JSON.parse(s)`: one value, then only whitespace may remain. -/
def jsonParse (s : JSStr) : Except JsonError Json :=
  match parseJValue (s.length + 1) s with
  | .error e => .error e
  | .ok (v, rest) => if (skipWs rest).isEmpty then .ok v else .error .other

/-! ## JS value semantics used by the source -/

/-- JS truthiness of a defined value. -/
def jsTruthy : Json → Bool
  | .null => false
  | .bool b => b
  | .num m _ => m != 0
  | .str s => !s.isEmpty
  | .arr _ => true
  | .obj _ => true

/-- JS truthiness where `none` is `undefined`. -/
def jsTruthyOpt : Option Json → Bool
  | none => false
  | some j => jsTruthy j

/-- Last-wins property lookup (JS semantics for duplicate JSON keys). -/
def lookupLast (fields : List (JSStr × Json)) (k : JSStr) : Option Json :=
  ((fields.filter (fun f => f.1 == k)).getLast?).map (fun f => f.2)

/-- `v[k]` property read.  Reading a property of `null` throws a `TypeError`
(whose `.message` is returned as the error); reads on other non-object values
yield `undefined` (`none`). -/
def jsGetField (j : Json) (k : JSStr) : Except JSStr (Option Json) :=
  match j with
  | .null => .error (jss "Cannot read properties of null (reading '" ++ k ++ jss "')")
  | .obj fields => .ok (lookupLast fields k)
  | _ => .ok none

/-- Decimal display of a parsed JSON number, used only inside diagnostic
message strings (JS's scientific-notation thresholds for extreme magnitudes
are not modelled; no claim reads a rendered number). -/
def numToDisplay (m : Int) (e : Int) : JSStr :=
  if 0 ≤ e then jss (Int.repr (m * 10 ^ e.toNat))
  else
    let k := (-e).toNat
    let a := m.natAbs
    let ip := a / 10 ^ k
    let fp := a % 10 ^ k
    let fracDigits := (Nat.toDigits 10 (fp + 10 ^ k)).drop 1
    let fracTrimmed := (fracDigits.reverse.dropWhile (fun c => c == '0')).reverse
    (if m < 0 then jss "-" else []) ++ jss (Nat.repr ip) ++
      (if fracTrimmed.isEmpty then [] else '.' :: fracTrimmed)

mutual

/-- String coercion applied by `Array.prototype.join` to its elements
(`null`/`undefined` render empty; nested arrays render as their
comma-join). -/
def jsToDisplay : Json → JSStr
  | .null => []
  | .bool b => if b then jss "true" else jss "false"
  | .num m e => numToDisplay m e
  | .str s => s
  | .arr l => joinWith (jss ",") (jsToDisplayList l)
  | .obj _ => jss "[object Object]"

/-- `jsToDisplay` over a list of elements. -/
def jsToDisplayList : List Json → List JSStr
  | [] => []
  | j :: js => jsToDisplay j :: jsToDisplayList js

end

/-! ## Data model (`src/types.ts`) -/

/-- The closed severity enum. -/
inductive Severity where
  | error
  | warning
  | info
deriving DecidableEq, Repr

/-- `ReviewConfig` of `src/types.ts`.  `temperature` is only ever passed
through verbatim, so its numeric type is modelled as `Rat`. -/
structure ReviewConfig where
  modelUrl : JSStr
  modelName : JSStr
  maxTokens : Nat
  temperature : Rat
  includePatterns : List JSStr
  excludePatterns : List JSStr
  reviewPrompt : JSStr
  maxFileSize : Option Nat := none
  timeout : Option Nat := none
deriving DecidableEq, Repr

/-- `GitDiff` of `src/types.ts` — the ChangeRecord. -/
structure GitDiff where
  file : JSStr
  additions : Nat
  deletions : Nat
  changes : JSStr
  isNew : Bool
  isDeleted : Bool
  isBinary : Bool
  fileSize : Option Nat := none
deriving DecidableEq, Repr

/-- `ReviewResult` of `src/types.ts` — the Finding.  Fields that the runtime
fills from an untyped model reply (`line`, `message`, `suggestion`,
`category`) hold the raw JSON values the code actually stores. -/
structure ReviewResult where
  file : JSStr
  severity : Severity
  line : Option Json := none
  message : Json
  suggestion : Option Json := none
  category : Option Json := none
deriving DecidableEq, Repr

/-- `HealthCheck` of `src/types.ts` — the ServiceHealth. -/
structure HealthCheck where
  isHealthy : Bool
  error : Option JSStr := none
deriving DecidableEq, Repr

/-! ## Response Recovery Parser (`AIReviewer.extractJSON`,
`fixIncompleteJSON`, `truncateToValidJSON`, `parseAIResponse`,
`validateSeverity` — `src/ai-reviewer.ts`) -/

/-- Interior of the first fenced block opened by `openPat` and closed by a
later ` ``` `, trimmed — the capture of the source's lazy fence regexes
`/```json\s*([\s\S]*?)\s*```/` and `/```\s*([\s\S]*?)\s*```/`.  `none` when no
closing fence exists (the regex fails to match and the text is kept). -/
def fenceCapture (openPat : JSStr) (s : JSStr) : Option JSStr :=
  match findSubIdx openPat s with
  | none => none
  | some i =>
    let after := s.drop (i + openPat.length)
    match findSubIdx (jss "```") after with
    | none => none
    | some j => some (jsTrim (after.take j))

/-- `AIReviewer.extractJSON` (lines 179–198): strip markdown fences, else grab
the span from the first `\x7b` to the last `\x7d` when the text does not
already start with `\x7b`, then trim. -/
def extractJSON (response : JSStr) : JSStr :=
  let jsonText := jsTrim response
  let jsonText :=
    if containsSub (jss "```json") jsonText then
      match fenceCapture (jss "```json") jsonText with
      | some inner => inner
      | none => jsonText
    else if containsSub (jss "```") jsonText then
      match fenceCapture (jss "```") jsonText with
      | some inner => inner
      | none => jsonText
    else jsonText
  let jsonText :=
    if lstartsWith (jss "\x7b") jsonText then jsonText
    else
      -- the greedy `/\x7b[\s\S]*\x7d/`: first opening brace to last closing
      match findSubIdx (jss "\x7b") jsonText with
      | none => jsonText
      | some i =>
        match lastIdxOf '\x7d' jsonText with
        | some j => if i < j then (jsonText.drop i).take (j - i + 1) else jsonText
        | none => jsonText
  jsTrim jsonText

/-- `AIReviewer.truncateToValidJSON` inner loop: scan indices below `n` from
high to low for a closer whose prefix parses. -/
def truncateAux (s : JSStr) : Nat → JSStr
  | 0 => jss "\x7b\"reviews\":[]\x7d"
  | n + 1 =>
    match s.get? n with
    | some c =>
      if c == '\x7d' || c == ']' then
        let candidate := s.take (n + 1)
        match jsonParse candidate with
        | .ok _ => candidate
        | .error _ => truncateAux s n
      else truncateAux s n
    | none => truncateAux s n

/-- `AIReviewer.truncateToValidJSON` (lines 231–247). -/
def truncateToValidJSON (s : JSStr) : JSStr := truncateAux s s.length

/-- `AIReviewer.fixIncompleteJSON` (lines 200–229).  The source branches on
`error.message.includes('Unterminated string')`, i.e. on the
`JsonError.unterminated` case of the parse-error model. -/
def fixIncompleteJSON (jsonText : JSStr) : JSStr :=
  match jsonParse jsonText with
  | .ok _ => jsonText
  | .error err =>
    if err == .unterminated then
      let cut : Nat := match lastIdxOf '"' jsonText with
        | some k => k + 1
        | none => 0      -- JS `lastIndexOf` is -1, and `slice(-1 + 1)` is the whole text
      let afterLastQuote := jsonText.drop cut
      if ¬ afterLastQuote.isEmpty ∧ ¬ containsSub (jss "\"") afterLastQuote ∧
          (containsSub (jss "\x7d") afterLastQuote ∨ containsSub (jss "]") afterLastQuote) then
        let fixedJson := jsonText.take cut ++ '"' :: afterLastQuote
        match jsonParse fixedJson with
        | .ok _ => fixedJson
        | .error _ => truncateToValidJSON jsonText
      else truncateToValidJSON jsonText
    else truncateToValidJSON jsonText

/-- `AIReviewer.validateSeverity` (lines 249–254): coerce into the closed
enum, defaulting unknown or non-string values to `info`. -/
def validateSeverity (sev : Option Json) : Severity :=
  match sev with
  | some (.str s) =>
    if s == jss "error" then .error
    else if s == jss "warning" then .warning
    else if s == jss "info" then .info
    else .info
  | _ => .info

/-- Build one `ReviewResult` from one element of the parsed `reviews` array
(the object literal of lines 156–163).  Property reads throw on a `null`
element. -/
def reviewFromJson (file : JSStr) (review : Json) : Except JSStr ReviewResult := do
  let sev ← jsGetField review (jss "severity")
  let line ← jsGetField review (jss "line")
  let msg ← jsGetField review (jss "message")
  let sug ← jsGetField review (jss "suggestion")
  let cat ← jsGetField review (jss "category")
  pure { file := file
         severity := validateSeverity sev
         line := line
         message := match msg with
           | some j => if jsTruthy j then j else .str (jss "No description")
           | none => .str (jss "No description")
         suggestion := sug
         category := cat }

/-- `parsed.reviews.map(...)` — JS `Array.prototype.map` whose callback can
throw: left to right, the first exception propagates. -/
def mapReviews (file : JSStr) : List Json → Except JSStr (List ReviewResult)
  | [] => .ok []
  | j :: js => do
    let r ← reviewFromJson file j
    let rest ← mapReviews file js
    pure (r :: rest)

/-- The `try`-block of `AIReviewer.parseAIResponse` (lines 142–163); each
throw site of the source surfaces as `.error`. -/
def parseAIBody (file : JSStr) (response : JSStr) : Except JSStr (List ReviewResult) := do
  let jsonText := extractJSON response
  let jsonText := fixIncompleteJSON jsonText
  match jsonParse jsonText with
  | .error _ => .error (jss "Unexpected token in JSON")
  | .ok parsed => do
    let reviews? ← jsGetField parsed (jss "reviews")
    match reviews? with
    | some (.arr reviews) =>
      if jsTruthyOpt reviews? then mapReviews file reviews
      else .error (jss "Invalid AI response format")
    | _ => .error (jss "Invalid AI response format")

/-- `AIReviewer.parseAIResponse` (lines 142–177): the Response Recovery
Parser.  The `catch` of the source turns any thrown error into the single
synthetic malformed-reply Finding. -/
def parseAIResponse (file : JSStr) (response : JSStr) : List ReviewResult :=
  match parseAIBody file response with
  | .ok results => results
  | .error _ =>
    [{ file := file
       severity := .info
       message := .str (jss "AI analysis failed - model response was malformed")
       category := some (.str (jss "general")) }]

/-! ## Model Client health probe (`AIReviewer.checkHealth`,
`src/ai-reviewer.ts` lines 11–34) -/

/-- Outcome of the `GET /api/tags` request: the transport either failed (the
thrown error's `.message`) or delivered a parsed body `response.data`. -/
inductive TagsOutcome where
  | fail (msg : JSStr)
  | success (data : Json)
deriving DecidableEq, Repr

/-- `modelName.split(':')[0]` — the base name before the tag separator. -/
def takeUntilColon : JSStr → JSStr
  | [] => []
  | ':' :: _ => []
  | c :: cs => c :: takeUntilColon cs

/-- `model.name.includes(base)` for one element of the reported model list:
throws on elements whose `name` does not support `.includes`. -/
def nameIncludes (base : JSStr) (m : Json) : Except JSStr Bool := do
  let nm ← jsGetField m (jss "name")
  match nm with
  | some (.str s) => pure (containsSub base s)
  | some (.arr l) => pure (l.any (fun e => jsonBeq e (.str base)))
  | _ => .error (jss "model.name.includes is not a function")

/-- `Array.prototype.some` with a predicate that can throw: short-circuits on
the first `true`, propagates the first exception. -/
def jsSomeM (f : Json → Except JSStr Bool) : List Json → Except JSStr Bool
  | [] => .ok false
  | m :: ms => do
    if (← f m) then pure true else jsSomeM f ms

/-- `models.map(m => m.name)` rendered for the not-found message: another JS
map whose property reads can throw. -/
def modelNamesDisplay : List Json → Except JSStr (List JSStr)
  | [] => .ok []
  | m :: ms => do
    let nm ← jsGetField m (jss "name")
    let rest ← modelNamesDisplay ms
    pure ((match nm with | some v => jsToDisplay v | none => []) :: rest)

/-- The `try`-block of `checkHealth` applied to a delivered body. -/
def checkHealthBody (cfg : ReviewConfig) (data : Json) : Except JSStr HealthCheck := do
  let modelsRaw ← jsGetField data (jss "models")
  let models : Json := match modelsRaw with
    | some j => if jsTruthy j then j else .arr []
    | none => .arr []
  match models with
  | .arr l =>
    let hasModel ← jsSomeM (nameIncludes (takeUntilColon cfg.modelName)) l
    if ¬ hasModel then do
      let names ← modelNamesDisplay l
      pure { isHealthy := false
             error := some (jss "Model " ++ cfg.modelName ++
               jss " not found. Available models: " ++ joinWith (jss ", ") names) }
    else pure { isHealthy := true }
  | _ => .error (jss "models.some is not a function")

/-- `AIReviewer.checkHealth`: the `catch` wraps both transport failures and
anything thrown while inspecting the body. -/
def checkHealth (cfg : ReviewConfig) (out : TagsOutcome) : HealthCheck :=
  match out with
  | .fail msg =>
    { isHealthy := false, error := some (jss "Ollama server unavailable: " ++ msg) }
  | .success data =>
    match checkHealthBody cfg data with
    | .ok h => h
    | .error msg =>
      { isHealthy := false, error := some (jss "Ollama server unavailable: " ++ msg) }

/-! ## Diff Extractor (`GitAnalyzer`, `src/git-analyzer.ts`) -/

/-- The precomputed statistics record passed by `getCommitDiff`. -/
structure DiffStats where
  additions : Nat
  deletions : Nat
  isNew : Bool
  isDeleted : Bool
deriving DecidableEq, Repr

/-- The counting loop of `parseSingleFileDiff` (lines 114–117). -/
def countDiffLines (lines : List JSStr) : Nat × Nat :=
  lines.foldl (fun acc line =>
    ((if lstartsWith (jss "+") line && !lstartsWith (jss "+++") line
      then acc.1 + 1 else acc.1),
     (if lstartsWith (jss "-") line && !lstartsWith (jss "---") line
      then acc.2 + 1 else acc.2)))
    (0, 0)

/-- `GitAnalyzer.parseSingleFileDiff` (lines 91–142).  The filesystem probe
(`existsSync`/`statSync`, failures swallowed) is the input `fsProbe`: the
file's size when it exists and stat succeeds, otherwise `none`. -/
def parseSingleFileDiff (fileName diffText : JSStr) ( isStaged : Bool)
    (stats : Option DiffStats) (fsProbe : Option Nat) : Option GitDiff :=
  if (jsTrim diffText).isEmpty then none
  else
    let isBinary := containsSub (jss "Binary files") diffText ||
                    containsSub (jss "differ") diffText
    let st : DiffStats :=
      match stats with
      | some st => st
      | none =>
        let lines := splitNl diffText
        { additions := (countDiffLines lines).1
          deletions := (countDiffLines lines).2
          isNew := lines.any (lstartsWith (jss "new file mode"))
          isDeleted := lines.any (lstartsWith (jss "deleted file mode")) }
    some { file := fileName
           additions := st.additions
           deletions := st.deletions
           changes := diffText
           isNew := st.isNew
           isDeleted := st.isDeleted
           isBinary := isBinary
           fileSize := if st.isDeleted then none else fsProbe }

/-- The statistics object `getCommitDiff` builds from a summary entry
(lines 75–80): `insertions || 0`, `deletions || 0`, and flags derived from the
counts. -/
def commitStats (insertions deletions : Option Nat) : DiffStats :=
  let ins := insertions.getD 0
  let del := deletions.getD 0
  { additions := ins
    deletions := del
    isNew := decide (0 < ins) && decide (del = 0)
    isDeleted := decide (ins = 0) && decide (0 < del) }

/-! ## Model Client analysis path (`AIReviewer.buildPrompt`,
`reviewSingleFile`, `reviewChanges`, `shouldSkipFile`) and the review-command
run loop of the CLI entry point -/

/-- `AIReviewer.buildPrompt` (lines 108–139). -/
def buildPrompt (cfg : ReviewConfig) (diff : GitDiff) : JSStr :=
  let fileInfo := joinWith (jss "\n") (List.filter (fun s => !s.isEmpty)
    [jss "File: " ++ diff.file,
     if diff.isNew then jss "🆕 NEW FILE" else [],
     if diff.isDeleted then jss "🗑️ DELETED FILE" else [],
     jss "📊 Changes: +" ++ natToJS diff.additions ++ jss " -" ++ natToJS diff.deletions])
  cfg.reviewPrompt ++ jss "\n\n" ++ fileInfo ++ jss "\n\nChanges:\n```diff\n" ++
    diff.changes.take 10000 ++ jss " " ++
    (if 10000 < diff.changes.length then jss "\n... (file truncated)" else []) ++
    jss "\n```\n\nIMPORTANT: Reply ONLY with valid JSON. No additional text before or after. Format:\n\x7b\n  \"reviews\": [\n    \x7b\n      \"severity\": \"error\",\n      \"line\": 123,\n      \"message\": \"Short problem description\",\n      \"suggestion\": \"How to fix it\",\n      \"category\": \"bugs\"\n    \x7d\n  ]\n\x7d\n\nIf no issues found, return: \x7b\"reviews\":[]\x7d\nKeep messages short and avoid special characters in strings."

/-- The body of the `POST /api/generate` request issued by
`reviewSingleFile` (lines 82–97), together with its request-config timeout. -/
structure GenRequest where
  model : JSStr
  prompt : JSStr
  stream : Bool
  temperature : Rat
  num_predict : Nat
  stop : List JSStr
  timeout : Nat
deriving DecidableEq, Repr

/-- Outcome of a generation request: a delivered reply text
(`response.data.response`), an axios timeout (`ECONNABORTED`), or another
transport error carrying its message. -/
inductive GenOutcome where
  | reply (text : JSStr)
  | econnaborted
  | fail (msg : JSStr)
deriving DecidableEq, Repr

/-- The model service, as the oracle answering each request. -/
abbrev ModelEnv := GenRequest → GenOutcome

/-- The regular-expression engine (`new RegExp(pattern).test(str)`), abstract:
`rt pattern str`. -/
abbrev RegexTest := JSStr → JSStr → Bool

/-- The oversized-file guard of `reviewSingleFile` (line 62), with JS
truthiness on both optionals: `config.maxFileSize && diff.fileSize &&
diff.fileSize > config.maxFileSize`. -/
def isOversized (cfg : ReviewConfig) (diff : GitDiff) : Bool :=
  match cfg.maxFileSize, diff.fileSize with
  | some mx, some fs => mx != 0 && fs != 0 && decide (mx < fs)
  | _, _ => false

/-- The oversized-skip Finding of lines 63–67. -/
def oversizedFinding (file : JSStr) (fs mx : Nat) : ReviewResult :=
  { file := file
    severity := .warning
    message := .str (jss "File too large for analysis (" ++ natToJS fs ++
      jss " bytes, limit: " ++ natToJS mx ++ jss " bytes)") }

/-- The binary-skip Finding of lines 72–76. -/
def binaryFinding (file : JSStr) : ReviewResult :=
  { file := file, severity := .info, message := .str (jss "Binary file skipped") }

/-- `reviewSingleFile` after the size guard: binary skip, else one generation
request (lines 70–105).  Returns the outcome of the `try` (`.error` = thrown)
and the list of generation requests issued. -/
def reviewSingleFileGen (cfg : ReviewConfig) (env : ModelEnv) (diff : GitDiff) :
    Except JSStr (List ReviewResult) × List GenRequest :=
  if diff.isBinary then
    (.ok [binaryFinding diff.file], [])
  else
    let req : GenRequest :=
      { model := cfg.modelName
        prompt := buildPrompt cfg diff
        stream := false
        temperature := cfg.temperature
        num_predict := min (if cfg.maxTokens = 0 then 2048 else cfg.maxTokens) 2048
        stop := [jss "\n\n---", jss "```\n\n"]
        timeout := match cfg.timeout with
          | some t => if t = 0 then 30000 else t
          | none => 30000 }
    match env req with
    | .reply text => (.ok (parseAIResponse diff.file text), [req])
    | .econnaborted => (.error (jss "Timeout when calling AI model"), [req])
    | .fail msg => (.error msg, [req])

/-- `AIReviewer.reviewSingleFile` (lines 60–106). -/
def reviewSingleFile (cfg : ReviewConfig) (env : ModelEnv) (diff : GitDiff) :
    Except JSStr (List ReviewResult) × List GenRequest :=
  match cfg.maxFileSize, diff.fileSize with
  | some mx, some fs =>
    if mx != 0 && fs != 0 && decide (mx < fs) then
      (.ok [oversizedFinding diff.file fs mx], [])
    else reviewSingleFileGen cfg env diff
  | _, _ => reviewSingleFileGen cfg env diff

/-- `AIReviewer.shouldSkipFile` (lines 256–270). -/
def shouldSkipFile (rt : RegexTest) (cfg : ReviewConfig) (diff : GitDiff) : Bool :=
  if cfg.excludePatterns.any (fun pat => rt pat diff.file) then true
  else if !cfg.includePatterns.isEmpty then
    !cfg.includePatterns.any (fun pat => rt pat diff.file)
  else false

/-- `AIReviewer.reviewChanges` (lines 36–58): sequential per-file loop, the
`catch` materialising a thrown failure as one error Finding.  Also returns
every generation request issued. -/
def reviewChanges (cfg : ReviewConfig) (rt : RegexTest) (env : ModelEnv)
    (diffs : List GitDiff) : List ReviewResult × List GenRequest :=
  diffs.foldl (fun acc diff =>
    if shouldSkipFile rt cfg diff then acc
    else
      match reviewSingleFile cfg env diff with
      | (.ok review, reqs) => (acc.1 ++ review, acc.2 ++ reqs)
      | (.error msg, reqs) =>
        (acc.1 ++ [{ file := diff.file
                     severity := .error
                     message := .str (jss "Failed to analyze file: " ++ msg) }],
         acc.2 ++ reqs))
    ([], [])

/-- The per-file loop of the CLI `review` command action (entry point,
lines 154–169): binary or oversized records are skipped with `continue`
before the reviewer is invoked; the others are reviewed one at a time. -/
def reviewCommandLoop (cfg : ReviewConfig) (rt : RegexTest) (env : ModelEnv)
    (diffs : List GitDiff) : List ReviewResult × List GenRequest :=
  diffs.foldl (fun acc diff =>
    if diff.isBinary || isOversized cfg diff then acc
    else
      let p := reviewChanges cfg rt env [diff]
      (acc.1 ++ p.1, acc.2 ++ p.2))
    ([], [])

/-! ## Finding Aggregator ordering (`groupByFile` and the per-file sort of
`displayResults`, CLI entry point lines 278–331) -/

/-- One step of the `groupByFile` reduce: push onto the existing key's list,
else append a fresh key (`if (!acc[result.file]) acc[result.file] = [];
acc[result.file].push(result)`). -/
def groupStep (acc : List (JSStr × List ReviewResult)) (r : ReviewResult) :
    List (JSStr × List ReviewResult) :=
  if acc.any (fun p => p.1 == r.file) then
    acc.map (fun p => if p.1 == r.file then (p.1, p.2 ++ [r]) else p)
  else acc ++ [(r.file, [r])]

/-- `groupByFile`: a `reduce` into a plain JS object keyed by file path; an
object is an insertion-ordered association list (adding a property appends,
updating keeps its position). -/
def groupByFile (results : List ReviewResult) : List (JSStr × List ReviewResult) :=
  results.foldl groupStep []

/-- Whether a JS object key is an array index in the ES sense: the canonical
decimal form of an integer below 2³² − 1. -/
def isArrayIndexKey (s : JSStr) : Bool :=
  !s.isEmpty && s.all (fun c => (digVal c).isSome) &&
  (decide (s.length = 1) || s.head? != some '0') &&
  decide (digitsToNat (s.map (fun c => c.toNat - 48)) < 4294967295)

/-- Numeric value of an array-index key. -/
def keyNum (s : JSStr) : Nat := digitsToNat (s.map (fun c => c.toNat - 48))

/-- A stable sort (insertion sort): `lt y x = false` for equal elements keeps
the earlier arrival first, matching the ES2019 stable `Array.prototype.sort`
whose algorithm is otherwise implementation-defined. -/
def insertOrdered {α : Type} (lt : α → α → Bool) (x : α) : List α → List α
  | [] => [x]
  | y :: ys => if lt y x then y :: insertOrdered lt x ys else x :: y :: ys

/-- Stable sort by the strict comparison `lt`. -/
def stableSort {α : Type} (lt : α → α → Bool) (l : List α) : List α :=
  l.foldr (insertOrdered lt) []

/-- `Object.entries` enumeration order (ES `OrdinaryOwnPropertyKeys`):
array-index keys first in ascending numeric order, then the remaining string
keys in insertion order. -/
def jsEntries (o : List (JSStr × List ReviewResult)) :
    List (JSStr × List ReviewResult) :=
  stableSort (fun p q => decide (keyNum p.1 < keyNum q.1))
      (o.filter (fun p => isArrayIndexKey p.1)) ++
    o.filter (fun p => !isArrayIndexKey p.1)

/-- The severity rank of the `displayResults` comparator
(`error 0, warning 1, info 2`). -/
def sevRank : Severity → Nat
  | .error => 0
  | .warning => 1
  | .info => 2

/-- The per-file `fileResults.sort(...)` of `displayResults`
(lines 294–300). -/
def sortFileResults (rs : List ReviewResult) : List ReviewResult :=
  stableSort (fun a b => decide (sevRank a.severity < sevRank b.severity)) rs

/-- The ordered report `displayResults` renders: `Object.entries` of the
grouping, each file's findings sorted by severity rank. -/
def displayGroups (results : List ReviewResult) :
    List (JSStr × List ReviewResult) :=
  (jsEntries (groupByFile results)).map (fun p => (p.1, sortFileResults p.2))

/-! ## Spec-side definitions

These follow the wording of the specification claims (not the source), for
comparison against the embedded code. -/

/-- Spec wording (C6): the number of lines beginning with a single `+`,
excluding the `+++` file-header line. -/
def specAddCount (t : JSStr) : Nat :=
  ((splitNl t).filter
    (fun l => lstartsWith (jss "+") l && !lstartsWith (jss "+++") l)).length

/-- Spec wording (C6): the number of lines beginning with a single `-`,
excluding the `---` header line. -/
def specDelCount (t : JSStr) : Nat :=
  ((splitNl t).filter
    (fun l => lstartsWith (jss "-") l && !lstartsWith (jss "---") l)).length

/-- Spec wording (C4): some line declares the "new file mode" marker. -/
def specNewMarker (t : JSStr) : Bool :=
  (splitNl t).any (lstartsWith (jss "new file mode"))

/-- Spec wording (C4): some line declares the "deleted file mode" marker. -/
def specDelMarker (t : JSStr) : Bool :=
  (splitNl t).any (lstartsWith (jss "deleted file mode"))

/-- Spec wording (C5): a reported identifier "shares a name prefix with" the
configured identifier's base name, read as: the base name is a name-prefix of
the reported identifier. -/
def specPrefixMatch (base reported : JSStr) : Bool :=
  lstartsWith base reported

/-- The string identifier carried by one entry of a reported model list. -/
def extractName (m : Json) : Option JSStr :=
  match m with
  | .obj fs =>
    match lookupLast fs (jss "name") with
    | some (.str s) => some s
    | _ => none
  | _ => none

/-- Spec wording (C5): the model identifiers reported by a delivered
model-listing body. -/
def specReportedNames (data : Json) : List JSStr :=
  match data with
  | .obj fields =>
    match lookupLast fields (jss "models") with
    | some (.arr l) => l.filterMap extractName
    | _ => []
  | _ => []

/-- The reported identifiers of a probe outcome (none when the transport
failed). -/
def reportedNamesOut : TagsOutcome → List JSStr
  | .fail _ => []
  | .success data => specReportedNames data

/-- Well-formed model-listing body (C5): when a `models` array is delivered,
every entry is an object whose `name` is a string.  Anything else (missing or
non-array `models`, a non-object body) is unrestricted. -/
def wellFormedTags : TagsOutcome → Prop
  | .fail _ => True
  | .success data =>
    match data with
    | .obj fields =>
      match lookupLast fields (jss "models") with
      | some (.arr l) =>
        ∀ m ∈ l, ∃ fs s, m = .obj fs ∧ lookupLast fs (jss "name") = some (.str s)
      | _ => True
    | _ => True

/-- One step of the first-seen-order file enumeration. -/
def seenStep (acc : List JSStr) (r : ReviewResult) : List JSStr :=
  if acc.any (fun f => f == r.file) then acc else acc ++ [r.file]

/-- Spec wording (C8): the file paths of a finding list in first-seen
order. -/
def firstSeenFiles (results : List ReviewResult) : List JSStr :=
  results.foldl seenStep []

/-- The group-key order the code actually produces (amended C8): array-index
path names first in ascending numeric order, then the remaining path names in
first-seen order. -/
def amendedKeyOrder (results : List ReviewResult) : List JSStr :=
  stableSort (fun a b => decide (keyNum a < keyNum b))
      ((firstSeenFiles results).filter isArrayIndexKey) ++
    (firstSeenFiles results).filter (fun s => !isArrayIndexKey s)

/-! ## Concrete fixtures used by counterexamples and witnesses -/

/-- A model service that always replies with an empty review list. -/
def envOk : ModelEnv := fun _ => .reply (jss "\x7b\"reviews\":[]\x7d")

/-- A pattern engine on which no pattern matches. -/
def rtNone : RegexTest := fun _ _ => false

/-- The example configuration the repository ships (`maxTokens: 4096`,
`temperature: 0.05`, `maxFileSize: 1000000`). -/
def cfgC1 : ReviewConfig :=
  { modelUrl := jss "http://localhost:11434"
    modelName := jss "codellama:7b-instruct"
    maxTokens := 4096
    temperature := 1/20
    includePatterns := []
    excludePatterns := []
    reviewPrompt := jss "You are a senior developer conducting code review."
    maxFileSize := some 1000000
    timeout := some 120000 }

/-- A small eligible change record. -/
def diffSmall : GitDiff :=
  { file := jss "src/app.ts"
    additions := 1
    deletions := 0
    changes := jss "+const x = 1;"
    isNew := false
    isDeleted := false
    isBinary := false
    fileSize := some 100 }

/-- The default configuration of the CLI (`maxFileSize: 500000`). -/
def cfgC2 : ReviewConfig :=
  { modelUrl := jss "http://localhost:11434"
    modelName := jss "codellama:7b-instruct"
    maxTokens := 2048
    temperature := 1/10
    includePatterns := []
    excludePatterns := []
    reviewPrompt := jss "You are a senior developer conducting code review."
    maxFileSize := some 500000
    timeout := some 120000 }

/-- A change record whose file size (600000 bytes) exceeds `cfgC2`'s 500000
byte ceiling. -/
def diffBig : GitDiff :=
  { file := jss "big.js"
    additions := 1
    deletions := 0
    changes := jss "+x"
    isNew := false
    isDeleted := false
    isBinary := false
    fileSize := some 600000 }

/-- The truncated reply of claim C3: cut off mid string value, no closing
quote, bracket or brace. -/
def c3Input : JSStr := jss "\x7b\"reviews\":[\x7b\"severity\":\"warning\",\"message\":\"ab"

/-- A reply whose single review is the empty object (used to exhibit a
nonempty parse result). -/
def respOneEmpty : JSStr := jss "\x7b\"reviews\":[\x7b\x7d]\x7d"

/-- The exact round-trip input of claim C7. -/
def c7Input : JSStr := jss "\x7b\"reviews\":[\x7b\"severity\":\"error\",\"message\":\"x\"\x7d]\x7d"

/-- A diff text declaring both a "new file mode" and a "deleted file mode"
line. -/
def textBothMarkers : JSStr := jss "new file mode 100644\ndeleted file mode 100644"

/-- A diff text declaring only a "new file mode" line. -/
def textNewOnly : JSStr := jss "new file mode 100644\n+added line"

/-- Configuration whose model identifier has base name `llama`. -/
def cfg5 : ReviewConfig :=
  { modelUrl := jss "http://localhost:11434"
    modelName := jss "llama"
    maxTokens := 2048
    temperature := 1/10
    includePatterns := []
    excludePatterns := []
    reviewPrompt := jss "p" }

/-- A model listing reporting exactly the identifier `codellama`. -/
def data5 : Json :=
  .obj [(jss "models", .arr [.obj [(jss "name", .str (jss "codellama"))]])]

/-- A model listing reporting exactly the identifier `mistral`. -/
def dataMistral : Json :=
  .obj [(jss "models", .arr [.obj [(jss "name", .str (jss "mistral"))]])]

/-- A plain-text diff of a document whose added lines mention the word
`differ`; its on-disk size exceeds `cfgC2`'s ceiling. -/
def textC10 : JSStr := jss "--- a/doc.txt\n+++ b/doc.txt\n+the two paths differ slightly\n"

/-- A small plain-text diff whose added line mentions the word `differ`. -/
def textC10small : JSStr := jss "--- a/note.txt\n+++ b/note.txt\n+opinions differ here\n"

/-- The record `textC10` parses to (oversized and flagged binary by the
`differ` substring). -/
def diffC10 : GitDiff :=
  { file := jss "doc.txt", additions := 1, deletions := 0, changes := textC10,
    isNew := false, isDeleted := false, isBinary := true, fileSize := some 600000 }

/-- The record `textC10small` parses to (small, flagged binary by the
`differ` substring). -/
def diffC10small : GitDiff :=
  { file := jss "note.txt", additions := 1, deletions := 0, changes := textC10small,
    isNew := false, isDeleted := false, isBinary := true, fileSize := some 100 }

/-- A finding against the file path `b`. -/
def findB : ReviewResult :=
  { file := jss "b", severity := .info, message := .str (jss "m1") }

/-- A finding against the file path `0` — a legal git path that is an ES
array-index property key. -/
def find0 : ReviewResult :=
  { file := jss "0", severity := .error, message := .str (jss "m2") }

/-- Two findings for one file, arriving as info then error. -/
def findsAB : List ReviewResult :=
  [{ file := jss "a", severity := .info, message := .str (jss "i1") },
   { file := jss "a", severity := .error, message := .str (jss "e1") }]

/-! ## Lemmas about the Diff Extractor -/

theorem countDiffLines_go : ∀ (lines : List JSStr) (a b : Nat),
    lines.foldl (fun acc line =>
      ((if lstartsWith (jss "+") line && !lstartsWith (jss "+++") line
        then acc.1 + 1 else acc.1),
       (if lstartsWith (jss "-") line && !lstartsWith (jss "---") line
        then acc.2 + 1 else acc.2)))
      (a, b) =
    (a + ((lines.filter
            (fun l => lstartsWith (jss "+") l && !lstartsWith (jss "+++") l)).length),
     b + ((lines.filter
            (fun l => lstartsWith (jss "-") l && !lstartsWith (jss "---") l)).length))
  | [], a, b => by simp
  | l :: ls, a, b => by
      simp only [List.foldl_cons, List.filter_cons]
      rw [countDiffLines_go ls]
      by_cases h1 : (lstartsWith (jss "+") l && !lstartsWith (jss "+++") l) = true <;>
        by_cases h2 : (lstartsWith (jss "-") l && !lstartsWith (jss "---") l) = true <;>
          simp [h1, h2] <;> omega

/-- The counting loop equals the filter-based count of the claim wording. -/
theorem countDiffLines_eq (lines : List JSStr) :
    countDiffLines lines =
      ((lines.filter
         (fun l => lstartsWith (jss "+") l && !lstartsWith (jss "+++") l)).length,
       (lines.filter
         (fun l => lstartsWith (jss "-") l && !lstartsWith (jss "---") l)).length) := by
  have h := countDiffLines_go lines 0 0
  simpa [countDiffLines] using h

/-- Inversion of `parseSingleFileDiff` in no-statistics mode. -/
theorem parseSingleFileDiff_none_inv
    {fileName diffText : JSStr} {isStaged : Bool} {fsProbe : Option Nat} {d : GitDiff}
    (h : parseSingleFileDiff fileName diffText isStaged none fsProbe = some d) :
    d.isNew = specNewMarker diffText ∧
    d.isDeleted = specDelMarker diffText ∧
    d.additions = (countDiffLines (splitNl diffText)).1 ∧
    d.deletions = (countDiffLines (splitNl diffText)).2 ∧
    d.isBinary = (containsSub (jss "Binary files") diffText ||
                  containsSub (jss "differ") diffText) ∧
    d.changes = diffText ∧ d.file = fileName := by
  unfold parseSingleFileDiff at h
  split at h
  · exact absurd h (by simp)
  · injection h with h
    subst h
    exact ⟨rfl, rfl, rfl, rfl, rfl, rfl, rfl⟩

/-- Inversion of `parseSingleFileDiff` in precomputed-statistics mode. -/
theorem parseSingleFileDiff_stats_inv
    {fileName diffText : JSStr} {isStaged : Bool} {st : DiffStats}
    {fsProbe : Option Nat} {d : GitDiff}
    (h : parseSingleFileDiff fileName diffText isStaged (some st) fsProbe = some d) :
    d.isNew = st.isNew ∧ d.isDeleted = st.isDeleted ∧
    d.additions = st.additions ∧ d.deletions = st.deletions := by
  unfold parseSingleFileDiff at h
  split at h
  · exact absurd h (by simp)
  · injection h with h
    subst h
    exact ⟨rfl, rfl, rfl, rfl⟩

/-! ## Claim C6 -/

/-- C6 — confirmed.  For every diff text parsed without precomputed
statistics: if exactly N of its lines begin with a `+` other than the `+++`
file-header marker and exactly M begin with a `-` other than the `---` header
marker, the produced ChangeRecord has `additions = N` and `deletions = M`.
(`specAddCount`/`specDelCount` are the claim-side counts; the hypothesis is
that a record was produced at all, i.e. the text is not whitespace-only.) -/
theorem C6_addedRemovedCounts
    (fileName diffText : JSStr) (isStaged : Bool) (fsProbe : Option Nat) (d : GitDiff)
    (h : parseSingleFileDiff fileName diffText isStaged none fsProbe = some d) :
    d.additions = specAddCount diffText ∧ d.deletions = specDelCount diffText := by
  obtain ⟨-, -, ha, hd, -, -, -⟩ := parseSingleFileDiff_none_inv h
  rw [ha, hd, countDiffLines_eq]
  exact ⟨rfl, rfl⟩

/-- Witness for C6 at a concrete two-additions/one-removal diff. -/
theorem C6_addedRemovedCounts_witness :
    ∃ d, parseSingleFileDiff (jss "f") (jss "+one\n+two\n-gone\n+++ b/f") false none none
           = some d ∧
         d.additions = specAddCount (jss "+one\n+two\n-gone\n+++ b/f") ∧
         d.deletions = specDelCount (jss "+one\n+two\n-gone\n+++ b/f") := by
  have h : parseSingleFileDiff (jss "f") (jss "+one\n+two\n-gone\n+++ b/f") false none none
      = some { file := jss "f", additions := 2, deletions := 1,
               changes := jss "+one\n+two\n-gone\n+++ b/f",
               isNew := false, isDeleted := false, isBinary := false,
               fileSize := none } := by rfl
  exact ⟨_, h, C6_addedRemovedCounts _ _ _ _ _ h⟩

/-! ## Claim C4 -/

/-- C4 — counterexample.  The claim states that a "new file mode" line yields
`isNewFile = true` **and** `isDeletedFile = false`, and that in every mode no
ChangeRecord ever has both flags true.  The two marker detections are
independent `lines.some(...)` scans, so a diff text containing both marker
lines produces a record with both flags true. -/
theorem C4_counterexample :
    (parseSingleFileDiff (jss "f") textBothMarkers false none none).map
        (fun d => (d.isNew, d.isDeleted)) = some (true, true) := by
  rfl

/-- C4 — amended.  Without precomputed statistics, a "new file mode" line
yields `isNewFile = true`, and `isDeletedFile = false` provided no line
declares the deleted marker (and symmetrically for "deleted file mode"); both
flags are true exactly when the text declares both markers.  In commit-range
mode (precomputed statistics derived from insertion/deletion counts) the two
flags are never both true. -/
theorem C4_newDeletedFlags
    (fileName diffText : JSStr) (isStaged : Bool) (fsProbe : Option Nat)
    (ins del : Option Nat) (d d' : GitDiff) :
    (parseSingleFileDiff fileName diffText isStaged none fsProbe = some d →
      ((specNewMarker diffText = true ∧ specDelMarker diffText = false) →
         d.isNew = true ∧ d.isDeleted = false) ∧
      ((specDelMarker diffText = true ∧ specNewMarker diffText = false) →
         d.isDeleted = true ∧ d.isNew = false) ∧
      ((d.isNew = true ∧ d.isDeleted = true) ↔
         (specNewMarker diffText = true ∧ specDelMarker diffText = true))) ∧
    (parseSingleFileDiff fileName diffText isStaged (some (commitStats ins del))
        fsProbe = some d' →
      ¬ (d'.isNew = true ∧ d'.isDeleted = true)) := by
  constructor
  · intro h
    obtain ⟨hn, hd, -, -, -, -, -⟩ := parseSingleFileDiff_none_inv h
    rw [hn, hd]
    exact ⟨fun hc => ⟨hc.1, hc.2⟩, fun hc => ⟨hc.1, hc.2⟩, Iff.rfl⟩
  · intro h hc
    obtain ⟨hn, hd, -, -⟩ := parseSingleFileDiff_stats_inv h
    rw [hn] at hc
    rw [hd] at hc
    simp only [commitStats, Bool.and_eq_true, decide_eq_true_eq] at hc
    omega

/-- Witness for C4 at a new-file-only diff and at commit statistics of three
insertions, zero deletions. -/
theorem C4_newDeletedFlags_witness :
    ∃ d d', parseSingleFileDiff (jss "f") textNewOnly false none none = some d ∧
      parseSingleFileDiff (jss "g") (jss "+x") false
          (some (commitStats (some 3) (some 0))) none = some d' ∧
      (d.isNew = true ∧ d.isDeleted = false) ∧
      ¬ (d'.isNew = true ∧ d'.isDeleted = true) := by
  have h1 : parseSingleFileDiff (jss "f") textNewOnly false none none
      = some { file := jss "f", additions := 1, deletions := 0,
               changes := textNewOnly, isNew := true, isDeleted := false,
               isBinary := false, fileSize := none } := by rfl
  have h2 : parseSingleFileDiff (jss "g") (jss "+x") false
        (some (commitStats (some 3) (some 0))) none
      = some { file := jss "g", additions := 3, deletions := 0,
               changes := jss "+x", isNew := true, isDeleted := false,
               isBinary := false, fileSize := none } := by rfl
  refine ⟨_, _, h1, h2, ?_, ?_⟩
  · exact ((C4_newDeletedFlags (jss "f") textNewOnly false none (some 3) (some 0)
        { file := jss "f", additions := 1, deletions := 0,
          changes := textNewOnly, isNew := true, isDeleted := false,
          isBinary := false, fileSize := none }
        { file := jss "f", additions := 1, deletions := 0,
          changes := textNewOnly, isNew := true, isDeleted := false,
          isBinary := false, fileSize := none }).1 h1).1 ⟨by decide, by decide⟩
  · exact (C4_newDeletedFlags (jss "g") (jss "+x") false none (some 3) (some 0)
        { file := jss "g", additions := 3, deletions := 0,
          changes := jss "+x", isNew := true, isDeleted := false,
          isBinary := false, fileSize := none }
        { file := jss "g", additions := 3, deletions := 0,
          changes := jss "+x", isNew := true, isDeleted := false,
          isBinary := false, fileSize := none }).2 h2

/-! ## Lemmas about the Response Recovery Parser -/

/-- A successfully built review result carries the given file path. -/
theorem reviewFromJson_file {file : JSStr} {j : Json} {r : ReviewResult}
    (h : reviewFromJson file j = .ok r) : r.file = file := by
  unfold reviewFromJson at h
  simp only [bind, Except.bind, pure, Except.pure] at h
  repeat' split at h
  all_goals (cases h <;> rfl)

/-- Every element of a successfully mapped review list carries the given file
path. -/
theorem mapReviews_file {file : JSStr} : ∀ {l : List Json} {res : List ReviewResult},
    mapReviews file l = .ok res → ∀ r ∈ res, r.file = file
  | [], res, h => by
      unfold mapReviews at h
      injection h with h
      subst h
      intro r hr
      cases hr
  | j :: js, res, h => by
      unfold mapReviews at h
      simp only [bind, Except.bind, pure, Except.pure] at h
      split at h
      · simp_all
      · split at h
        · simp_all
        · injection h with h
          subst h
          intro r hr
          rcases List.mem_cons.mp hr with hr | hr
          · subst hr
            exact reviewFromJson_file (by assumption)
          · exact mapReviews_file (by assumption) r hr

/-- A successful parse body comes from mapping some review array. -/
theorem parseAIBody_ok {file response : JSStr} {res : List ReviewResult}
    (h : parseAIBody file response = .ok res) :
    ∃ reviews, mapReviews file reviews = .ok res := by
  unfold parseAIBody at h
  simp only [bind, Except.bind] at h
  repeat' split at h
  all_goals first
    | exact absurd h (by simp)
    | exact ⟨_, h⟩

/-- Every finding the Response Recovery Parser returns carries the given file
path (both the successful mapping and the malformed-reply fallback). -/
theorem parseAIResponse_file (file response : JSStr) :
    ∀ r ∈ parseAIResponse file response, r.file = file := by
  unfold parseAIResponse
  split
  · next heq => exact mapReviews_file (parseAIBody_ok heq).choose_spec
  · intro r hr
    rcases List.mem_singleton.mp hr with h
    subst h
    rfl

/-! ## Claim C7 -/

/-- C7 — confirmed.  Feeding the Response Recovery Parser the exact text
`\x7b"reviews":[\x7b"severity":"error","message":"x"\x7d]\x7d` yields exactly
one Finding with severity `error`, message `x`, and undefined `line`,
`suggestion` and `category`. -/
theorem C7_roundTrip (file : JSStr) :
    parseAIResponse file c7Input =
      [{ file := file, severity := .error, line := none,
         message := .str (jss "x"), suggestion := none, category := none }] := by
  rfl

/-! ## Claim C3 -/

/-- C3 — confirmed.  On the truncated reply
`\x7b"reviews":[\x7b"severity":"warning","message":"ab` the parser returns
the terminal empty finding list (one of the two outcomes the claim allows);
and the parsing function is total — it is defined for every input text (every
throw site of the source is modelled in `Except` and caught by the
`parseAIResponse` handler), and every finding it ever returns is stamped with
the requested file path. -/
theorem C3_truncationTotal :
    (∀ file : JSStr, parseAIResponse file c3Input = []) ∧
    (∀ file response : JSStr, ∀ r ∈ parseAIResponse file response, r.file = file) := by
  constructor
  · intro file
    rfl
  · exact parseAIResponse_file

/-- Witness for C3: the truncated input at a concrete file path, and the
file-stamp conclusion applied to the single finding returned for a reply
whose one review is the empty object. -/
theorem C3_truncationTotal_witness :
    parseAIResponse (jss "f") c3Input = [] ∧
    ({ file := jss "f", severity := .info, line := none,
       message := .str (jss "No description"), suggestion := none,
       category := none } : ReviewResult).file = jss "f" := by
  refine ⟨C3_truncationTotal.1 (jss "f"), ?_⟩
  refine C3_truncationTotal.2 (jss "f") respOneEmpty _ ?_
  have h : parseAIResponse (jss "f") respOneEmpty =
      [{ file := jss "f", severity := .info, line := none,
         message := .str (jss "No description"), suggestion := none,
         category := none }] := by rfl
  rw [h]
  exact List.mem_singleton_self _

/-! ## Lemmas about the analysis request path -/

/-- Past the size guard and for a non-binary record, exactly one generation
request is issued, whatever the service outcome, and its fields are the
config-derived ones of lines 82–97. -/
theorem reviewSingleFileGen_req (cfg : ReviewConfig) (env : ModelEnv) (diff : GitDiff)
    (h2 : diff.isBinary = false) :
    (reviewSingleFileGen cfg env diff).2 =
      [{ model := cfg.modelName
         prompt := buildPrompt cfg diff
         stream := false
         temperature := cfg.temperature
         num_predict := min (if cfg.maxTokens = 0 then 2048 else cfg.maxTokens) 2048
         stop := [jss "\n\n---", jss "```\n\n"]
         timeout := match cfg.timeout with
           | some t => if t = 0 then 30000 else t
           | none => 30000 }] := by
  unfold reviewSingleFileGen
  rw [h2]
  simp only [Bool.false_eq_true, if_false]
  split <;> rfl

/-- A record that does not trip the oversized guard reaches the generation
path. -/
theorem reviewSingleFile_not_oversized (cfg : ReviewConfig) (env : ModelEnv)
    (diff : GitDiff) (h1 : isOversized cfg diff = false) :
    reviewSingleFile cfg env diff = reviewSingleFileGen cfg env diff := by
  unfold isOversized at h1
  unfold reviewSingleFile
  split
  · next mx fs heq1 heq2 =>
      rw [heq1, heq2] at h1
      have h1' : (mx != 0 && fs != 0 && decide (mx < fs)) = false := h1
      rw [h1']
      rfl
  · rfl

/-! ## Claim C1 -/

/-- C1 — counterexample.  With the repository's own example configuration
(`maxTokens: 4096`) and an eligible record, the single issued request carries
`num_predict = 2048`, not `PipelineConfig.maxTokens`: line 90 computes
`Math.min(maxTokens || 2048, 2048)`, capping the budget at 2048. -/
theorem C1_counterexample :
    cfgC1.maxTokens = 4096 ∧ isOversized cfgC1 diffSmall = false ∧
    diffSmall.isBinary = false ∧
    (reviewSingleFile cfgC1 envOk diffSmall).2.map (fun r => r.num_predict) = [2048] :=
  ⟨rfl, rfl, rfl, rfl⟩

/-- C1 — amended.  For every eligible record the analyze operation issues
exactly one generation request whose sampling temperature is the configured
one, whose `num_predict` is `min(maxTokens, 2048)` (2048 substituted when
`maxTokens` is zero), and whose wall-clock timeout is the configured timeout
when set and nonzero, 30000 otherwise. -/
theorem C1_generationRequestFields
    (cfg : ReviewConfig) (env : ModelEnv) (diff : GitDiff)
    (h1 : isOversized cfg diff = false) (h2 : diff.isBinary = false) :
    ∃ req, (reviewSingleFile cfg env diff).2 = [req] ∧
      req.temperature = cfg.temperature ∧
      req.num_predict = min (if cfg.maxTokens = 0 then 2048 else cfg.maxTokens) 2048 ∧
      req.timeout = (match cfg.timeout with
        | some t => if t = 0 then 30000 else t
        | none => 30000) ∧
      req.model = cfg.modelName ∧ req.stream = false := by
  rw [reviewSingleFile_not_oversized cfg env diff h1]
  exact ⟨_, reviewSingleFileGen_req cfg env diff h2, rfl, rfl, rfl, rfl, rfl⟩

/-- Witness for C1 at the example configuration and a small eligible
record. -/
theorem C1_generationRequestFields_witness :
    isOversized cfgC1 diffSmall = false ∧ diffSmall.isBinary = false ∧
    ∃ req, (reviewSingleFile cfgC1 envOk diffSmall).2 = [req] ∧
      req.temperature = cfgC1.temperature ∧
      req.num_predict = min (if cfgC1.maxTokens = 0 then 2048 else cfgC1.maxTokens) 2048 ∧
      req.timeout = (match cfgC1.timeout with
        | some t => if t = 0 then 30000 else t
        | none => 30000) ∧
      req.model = cfgC1.modelName ∧ req.stream = false :=
  ⟨rfl, rfl, C1_generationRequestFields cfgC1 envOk diffSmall rfl rfl⟩

/-! ## Claim C2 -/

/-- C2 — the claim is right and the code is wrong.  A record whose size
exceeds the ceiling indeed never produces a generation request, but the CLI
review loop (entry point lines 155–158) skips oversized records with
`continue` **before** invoking the reviewer, so the final report contains no
Finding at all for the file — while `AIReviewer.reviewSingleFile` (lines
62–68), had it been reached, returns exactly the warning Finding naming both
byte counts that the spec and the repository's README ("File too large for
analysis") document. -/
theorem C2_oversizedDropped :
    reviewCommandLoop cfgC2 rtNone envOk [diffBig] = ([], []) ∧
    reviewSingleFile cfgC2 envOk diffBig =
      (.ok [oversizedFinding (jss "big.js") 600000 500000], []) :=
  ⟨rfl, rfl⟩

/-! ## Lemmas about trimming and the binary skip path -/

/-- A matched pattern's head equals the head of the text it matches at. -/
theorem lstartsWith_head {p c : Char} {ps cs : JSStr}
    (h : lstartsWith (p :: ps) (c :: cs) = true) : p = c := by
  simp only [lstartsWith, Bool.and_eq_true, beq_iff_eq] at h
  exact h.1

/-- The head character of a contained pattern occurs in the text. -/
theorem mem_of_containsSub {p : Char} {ps : JSStr} :
    ∀ {s : JSStr}, containsSub (p :: ps) s = true → p ∈ s
  | [], h => by simp [containsSub] at h
  | c :: cs, h => by
      unfold containsSub at h
      rw [Bool.or_eq_true] at h
      rcases h with h | h
      · exact lstartsWith_head h ▸ List.mem_cons_self c cs
      · exact List.mem_cons_of_mem c (mem_of_containsSub h)

/-- Characters dropped by `trimLeft` are whitespace. -/
theorem mem_trimLeft_or_ws :
    ∀ {s : JSStr} {c : Char}, c ∈ s → c ∈ trimLeft s ∨ jsWsChar c = true
  | a :: as, c, h => by
      unfold trimLeft
      by_cases hw : jsWsChar a = true
      · rw [if_pos hw]
        rcases List.mem_cons.mp h with h | h
        · exact Or.inr (h ▸ hw)
        · exact mem_trimLeft_or_ws h
      · rw [if_neg hw]
        exact Or.inl h

/-- A text containing a non-whitespace character does not trim to empty. -/
theorem jsTrim_nonempty_of_mem {s : JSStr} {c : Char}
    (hc : c ∈ s) (hw : jsWsChar c = false) : (jsTrim s).isEmpty = false := by
  have h1 : c ∈ trimLeft s.reverse := by
    rcases mem_trimLeft_or_ws (List.mem_reverse.mpr hc) with h | h
    · exact h
    · rw [hw] at h
      cases h
  have h2 : c ∈ jsTrim s := by
    unfold jsTrim
    rcases mem_trimLeft_or_ws (List.mem_reverse.mpr h1) with h | h
    · exact h
    · rw [hw] at h
      cases h
  cases hjt : jsTrim s with
  | nil => rw [hjt] at h2; cases h2
  | cons a as => rfl

/-- A text containing `differ` parses (in no-statistics mode) to a record
flagged binary. -/
theorem parseSingleFileDiff_differ
    (fileName t : JSStr) (isStaged : Bool) (fsProbe : Option Nat)
    (h : containsSub (jss "differ") t = true) :
    ∃ d, parseSingleFileDiff fileName t isStaged none fsProbe = some d ∧
      d.isBinary = true := by
  have hd : 'd' ∈ t := by
    have h' : containsSub ('d' :: jss "iffer") t = true := h
    exact mem_of_containsSub h'
  have hne : (jsTrim t).isEmpty = false := jsTrim_nonempty_of_mem hd (by rfl)
  unfold parseSingleFileDiff
  rw [hne]
  exact ⟨_, rfl, by rw [h, Bool.or_true]⟩

/-- A binary record never causes a generation request in `reviewSingleFile`
(either the oversized warning or the binary skip is returned first). -/
theorem reviewSingleFile_binary_no_req (cfg : ReviewConfig) (env : ModelEnv)
    (d : GitDiff) (hb : d.isBinary = true) :
    (reviewSingleFile cfg env d).2 = [] := by
  have hg : (reviewSingleFileGen cfg env d).2 = [] := by
    unfold reviewSingleFileGen
    rw [hb]
    rfl
  unfold reviewSingleFile
  split
  · split
    · rfl
    · exact hg
  · exact hg

/-- A binary record that is neither oversized nor pattern-skipped yields
exactly the synthetic binary-skip Finding through `reviewChanges`, with no
request. -/
theorem reviewChanges_binary_finding (cfg : ReviewConfig) (rt : RegexTest)
    (env : ModelEnv) (d : GitDiff) (hb : d.isBinary = true)
    (ho : isOversized cfg d = false) (hs : shouldSkipFile rt cfg d = false) :
    reviewChanges cfg rt env [d] = ([binaryFinding d.file], []) := by
  have h1 : reviewSingleFile cfg env d = (.ok [binaryFinding d.file], []) := by
    rw [reviewSingleFile_not_oversized cfg env d ho]
    unfold reviewSingleFileGen
    rw [hb]
    rfl
  unfold reviewChanges
  simp only [List.foldl_cons, List.foldl_nil]
  rw [hs, h1]
  rfl

/-! ## Claim C10 -/

/-- C10 — counterexample.  The claim says a `differ`-containing diff is
classified binary and "receives only the synthetic 'Binary file skipped'
informational Finding".  The record below (whose on-disk size also exceeds
the ceiling) is indeed flagged binary, but the size guard of
`reviewSingleFile` runs first, so the reviewer returns the oversized warning
Finding instead of the binary-skip one. -/
theorem C10_counterexample :
    parseSingleFileDiff (jss "doc.txt") textC10 false none (some 600000)
        = some diffC10 ∧
    diffC10.isBinary = true ∧ containsSub (jss "differ") textC10 = true ∧
    reviewChanges cfgC2 rtNone envOk [diffC10] =
      ([oversizedFinding (jss "doc.txt") 600000 500000], []) :=
  ⟨rfl, rfl, rfl, rfl⟩

/-- C10 — amended.  Every diff text containing the substring `differ` parses
(without precomputed statistics) to a record with `isBinary = true`; a binary
record never causes a generation request — not in `reviewSingleFile`, not
through `reviewChanges`, and the CLI run loop drops it with no Finding at
all; and when the record is neither oversized nor pattern-skipped,
`reviewChanges` materialises exactly the synthetic "Binary file skipped"
informational Finding for it. -/
theorem C10_differBinary
    (fileName t : JSStr) (isStaged : Bool) (fsProbe : Option Nat)
    (cfg : ReviewConfig) (rt : RegexTest) (env : ModelEnv) (d : GitDiff) :
    (containsSub (jss "differ") t = true →
      ∃ d', parseSingleFileDiff fileName t isStaged none fsProbe = some d' ∧
        d'.isBinary = true) ∧
    (d.isBinary = true →
      (reviewSingleFile cfg env d).2 = [] ∧
      (reviewChanges cfg rt env [d]).2 = [] ∧
      reviewCommandLoop cfg rt env [d] = ([], []) ∧
      (isOversized cfg d = false → shouldSkipFile rt cfg d = false →
        reviewChanges cfg rt env [d] = ([binaryFinding d.file], []))) := by
  constructor
  · exact parseSingleFileDiff_differ fileName t isStaged fsProbe
  · intro hb
    have hno := reviewSingleFile_binary_no_req cfg env d hb
    refine ⟨hno, ?_, ?_, reviewChanges_binary_finding cfg rt env d hb⟩
    · unfold reviewChanges
      simp only [List.foldl_cons, List.foldl_nil]
      split
      · rfl
      · split
        · next review reqs heq =>
            have : reqs = [] := by
              have h2 := congrArg Prod.snd heq
              rw [hno] at h2
              exact h2.symm
            rw [this]
            rfl
        · next msg reqs heq =>
            have : reqs = [] := by
              have h2 := congrArg Prod.snd heq
              rw [hno] at h2
              exact h2.symm
            rw [this]
            rfl
    · unfold reviewCommandLoop
      simp only [List.foldl_cons, List.foldl_nil]
      rw [hb]
      rfl

/-- Witness for C10 at a small plain-text diff mentioning `differ`. -/
theorem C10_differBinary_witness :
    (∃ d', parseSingleFileDiff (jss "note.txt") textC10small false none (some 100)
        = some d' ∧ d'.isBinary = true) ∧
    reviewCommandLoop cfgC2 rtNone envOk [diffC10small] = ([], []) ∧
    reviewChanges cfgC2 rtNone envOk [diffC10small] =
      ([binaryFinding (jss "note.txt")], []) := by
  have h := C10_differBinary (jss "note.txt") textC10small false (some 100)
    cfgC2 rtNone envOk diffC10small
  have h2 := h.2 rfl
  exact ⟨h.1 rfl, h2.2.2.1, h2.2.2.2 rfl rfl⟩

/-! ## Lemmas about the health probe -/

/-- A health value the probe body returns successfully is either healthy or
carries an error text. -/
theorem checkHealthBody_ok {cfg : ReviewConfig} {data : Json} {h : HealthCheck}
    (hok : checkHealthBody cfg data = .ok h) :
    h.isHealthy = true ∨ h.error.isSome = true := by
  unfold checkHealthBody at hok
  simp only [bind, Except.bind, pure, Except.pure] at hok
  repeat' split at hok
  all_goals cases hok <;> first | exact Or.inl rfl | exact Or.inr rfl

/-- The containment test the probe runs on one entry, phrased through the
entry's extracted name. -/
def nameHit (base : JSStr) (m : Json) : Bool :=
  match extractName m with
  | some s => containsSub base s
  | none => false

/-- On a well-formed entry, `model.name.includes(base)` succeeds and equals
`nameHit`. -/
theorem nameIncludes_wf {base : JSStr} {m : Json}
    (hm : ∃ fs s, m = .obj fs ∧ lookupLast fs (jss "name") = some (.str s)) :
    nameIncludes base m = .ok (nameHit base m) := by
  obtain ⟨fs, s, hm, hs⟩ := hm
  subst hm
  unfold nameIncludes jsGetField nameHit extractName
  simp only [bind, Except.bind, hs]
  rfl

/-- `Array.prototype.some` over throwing-free entries computes `List.any`. -/
theorem jsSomeM_wf {f : Json → Except JSStr Bool} {g : Json → Bool} :
    ∀ {l : List Json}, (∀ m ∈ l, f m = .ok (g m)) → jsSomeM f l = .ok (l.any g)
  | [], _ => rfl
  | m :: ms, h => by
      unfold jsSomeM
      rw [h m (List.mem_cons_self m ms)]
      simp only [bind, Except.bind, List.any_cons]
      by_cases hg : g m = true
      · rw [hg]
        rfl
      · rw [Bool.not_eq_true] at hg
        rw [hg]
        simp only [Bool.false_or]
        exact jsSomeM_wf (fun m' hm' => h m' (List.mem_cons_of_mem m hm'))

/-- `any` over a `filterMap`. -/
theorem any_filterMap {α : Type} (ext : α → Option JSStr) (p : JSStr → Bool) :
    ∀ l : List α, (l.filterMap ext).any p =
      l.any (fun m => match ext m with | some s => p s | none => false)
  | [] => rfl
  | a :: l => by
      cases ha : ext a <;>
        simp [List.filterMap_cons, ha, any_filterMap ext p l]

/-- Central health-probe lemma: on a well-formed outcome the probe's verdict
is exactly "some reported identifier contains the configured base name". -/
theorem checkHealth_success_healthy (cfg : ReviewConfig) (data : Json)
    (hwf : wellFormedTags (.success data)) :
    (checkHealth cfg (.success data)).isHealthy =
      (specReportedNames data).any
        (fun n => containsSub (takeUntilColon cfg.modelName) n) := by
  cases data with
  | obj fields =>
    cases hml : lookupLast fields (jss "models") with
    | none =>
      unfold checkHealth checkHealthBody jsGetField specReportedNames
      simp only [bind, Except.bind, hml]
      rfl
    | some j =>
      cases j with
      | arr l =>
        simp only [wellFormedTags, hml] at hwf
        have hsome : jsSomeM (nameIncludes (takeUntilColon cfg.modelName)) l =
            .ok (l.any (nameHit (takeUntilColon cfg.modelName))) :=
          jsSomeM_wf (fun m hm => nameIncludes_wf (hwf m hm))
        have hnames : (specReportedNames (.obj fields)).any
            (fun n => containsSub (takeUntilColon cfg.modelName) n) =
            l.any (nameHit (takeUntilColon cfg.modelName)) := by
          simp only [specReportedNames, hml, any_filterMap]
          rfl
        rw [hnames]
        by_cases hany : l.any (nameHit (takeUntilColon cfg.modelName)) = true
        · simp [checkHealth, checkHealthBody, jsGetField, jsTruthy, bind,
            Except.bind, pure, Except.pure, hml, hsome, hany]
        · rw [Bool.not_eq_true] at hany
          cases hdisp : modelNamesDisplay l with
          | ok names =>
            simp [checkHealth, checkHealthBody, jsGetField, jsTruthy, bind,
              Except.bind, pure, Except.pure, hml, hsome, hany, hdisp]
          | error e =>
            simp [checkHealth, checkHealthBody, jsGetField, jsTruthy, bind,
              Except.bind, pure, Except.pure, hml, hsome, hany, hdisp]
      | null =>
        unfold checkHealth checkHealthBody jsGetField specReportedNames
        simp only [bind, Except.bind, hml]
        rfl
      | bool b =>
        unfold checkHealth checkHealthBody jsGetField specReportedNames
        simp only [bind, Except.bind, hml]
        cases b <;> rfl
      | num m e =>
        unfold checkHealth checkHealthBody jsGetField specReportedNames
        simp only [bind, Except.bind, hml]
        by_cases hm : (m != 0) = true <;> simp [jsTruthy, hm] <;> rfl
      | str s =>
        unfold checkHealth checkHealthBody jsGetField specReportedNames
        simp only [bind, Except.bind, hml]
        by_cases hs : s.isEmpty = true <;> simp [jsTruthy, hs] <;> rfl
      | obj fs2 =>
        unfold checkHealth checkHealthBody jsGetField specReportedNames
        simp only [bind, Except.bind, hml]
        rfl
  | null => rfl
  | bool b => rfl
  | num m e => rfl
  | str s => rfl
  | arr l => rfl

/-! ## Claim C9 -/

/-- C9 — confirmed.  The probe is total over every configuration and every
transport/payload outcome (its embedding returns a plain `HealthCheck`; every
throwing operation of the body is modelled in `Except` and caught), every
unhealthy verdict carries an error text, and a connection failure's message
is captured verbatim into the health result. -/
theorem C9_probeNeverThrows (cfg : ReviewConfig) (out : TagsOutcome) :
    ((checkHealth cfg out).isHealthy = false →
      ((checkHealth cfg out).error).isSome = true) ∧
    ∀ msg, checkHealth cfg (.fail msg) =
      { isHealthy := false
        error := some (jss "Ollama server unavailable: " ++ msg) } := by
  constructor
  · intro hf
    cases out with
    | fail msg => rfl
    | success data =>
      simp only [checkHealth] at hf ⊢
      cases hbody : checkHealthBody cfg data with
      | error e => simp [hbody]
      | ok h =>
        simp only [hbody] at hf ⊢
        rcases checkHealthBody_ok hbody with ht | hs
        · rw [ht] at hf
          cases hf
        · exact hs
  · intro msg
    rfl

/-- Witness for C9 at a concrete connection failure. -/
theorem C9_probeNeverThrows_witness :
    ((checkHealth cfg5 (.fail (jss "connect ECONNREFUSED"))).error).isSome = true ∧
    checkHealth cfg5 (.fail (jss "connect ECONNREFUSED")) =
      { isHealthy := false
        error := some (jss "Ollama server unavailable: connect ECONNREFUSED") } := by
  constructor
  · exact (C9_probeNeverThrows cfg5 (.fail (jss "connect ECONNREFUSED"))).1 rfl
  · exact ((C9_probeNeverThrows cfg5
      (.fail (jss "connect ECONNREFUSED"))).2 (jss "connect ECONNREFUSED")).trans
      (by rfl)

/-! ## Claim C5 -/

/-- C5 — counterexample.  The claim requires `healthy = false` whenever no
reported identifier shares a name prefix with the configured base name.  With
configured base `llama` and reported identifier `codellama` (which neither
has `llama` as a prefix nor shares any common prefix with it), the probe
still reports healthy: line 18 tests substring containment
(`model.name.includes(base)`), not a prefix match. -/
theorem C5_counterexample :
    checkHealth cfg5 (.success data5) = { isHealthy := true, error := none } ∧
    reportedNamesOut (.success data5) = [jss "codellama"] ∧
    specPrefixMatch (takeUntilColon cfg5.modelName) (jss "codellama") = false :=
  ⟨rfl, rfl, rfl⟩

/-- C5 — amended.  For every well-formed model-listing outcome the probe
returns `healthy = false` (always with a cause text) exactly when the service
is unreachable or no reported identifier **contains** the configured
identifier's base name as a substring; in every other case it returns
`healthy = true`. -/
theorem C5_healthCondition (cfg : ReviewConfig) (out : TagsOutcome)
    (hwf : wellFormedTags out) :
    ((checkHealth cfg out).isHealthy = false ↔
      ((∃ msg, out = .fail msg) ∨
        ∀ n ∈ reportedNamesOut out,
          containsSub (takeUntilColon cfg.modelName) n = false)) ∧
    ((checkHealth cfg out).isHealthy = false →
      ((checkHealth cfg out).error).isSome = true) := by
  constructor
  · cases out with
    | fail msg =>
      constructor
      · intro _
        exact Or.inl ⟨msg, rfl⟩
      · intro _
        rfl
    | success data =>
      rw [Bool.eq_false_iff, Ne, ← Bool.not_eq_false,
        checkHealth_success_healthy cfg data hwf]
      constructor
      · intro hany
        rw [Classical.not_not] at hany
        refine Or.inr ?_
        intro n hn
        simp only [List.any_eq_false] at hany
        simpa using hany n hn
      · intro h
        rcases h with ⟨msg, hmsg⟩ | hall
        · cases hmsg
        · rw [Classical.not_not]
          simp only [List.any_eq_false]
          intro n hn
          simp [hall n hn]
  · intro hf
    cases out with
    | fail msg => rfl
    | success data =>
      simp only [checkHealth] at hf ⊢
      cases hbody : checkHealthBody cfg data with
      | error e => simp [hbody]
      | ok h =>
        simp only [hbody] at hf ⊢
        rcases checkHealthBody_ok hbody with ht | hs
        · rw [ht] at hf
          cases hf
        · exact hs

/-- Witness for C5 at a well-formed listing that lacks the configured
model. -/
theorem C5_healthCondition_witness :
    wellFormedTags (.success dataMistral) ∧
    ((checkHealth cfgC1 (.success dataMistral)).isHealthy = false ↔
      ((∃ msg, (TagsOutcome.success dataMistral) = .fail msg) ∨
        ∀ n ∈ reportedNamesOut (.success dataMistral),
          containsSub (takeUntilColon cfgC1.modelName) n = false)) := by
  have hwf : wellFormedTags (.success dataMistral) := by
    unfold wellFormedTags dataMistral
    simp only [lookupLast]
    intro m hm
    simp only [List.filter, List.getLast?, List.mem_singleton] at hm ⊢
    refine ⟨[(jss "name", .str (jss "mistral"))], jss "mistral", ?_, rfl⟩
    simpa using hm
  exact ⟨hwf, (C5_healthCondition cfgC1 (.success dataMistral) hwf).1⟩

/-! ## Lemmas about the report ordering -/

/-- Membership in an ordered insertion. -/
theorem mem_insertOrdered {α : Type} (lt : α → α → Bool) (x : α) :
    ∀ (l : List α) (a : α), a ∈ insertOrdered lt x l ↔ a = x ∨ a ∈ l
  | [], a => by simp [insertOrdered]
  | y :: ys, a => by
      unfold insertOrdered
      split
      · rw [List.mem_cons, mem_insertOrdered lt x ys a, List.mem_cons]
        tauto
      · rw [List.mem_cons, List.mem_cons]

/-- Membership in a stable sort. -/
theorem mem_stableSort {α : Type} (lt : α → α → Bool) :
    ∀ (l : List α) (a : α), a ∈ stableSort lt l ↔ a ∈ l
  | [], a => Iff.rfl
  | x :: xs, a => by
      show a ∈ insertOrdered lt x (stableSort lt xs) ↔ _
      rw [mem_insertOrdered, mem_stableSort lt xs a, List.mem_cons]

/-- Ordered insertion by a rank function preserves sortedness. -/
theorem insertOrdered_pairwise {α : Type} (ρ : α → Nat) (x : α) :
    ∀ l : List α, l.Pairwise (fun a b => ρ a ≤ ρ b) →
      (insertOrdered (fun a b => decide (ρ a < ρ b)) x l).Pairwise
        (fun a b => ρ a ≤ ρ b)
  | [], _ => List.pairwise_singleton _ x
  | y :: ys, h => by
      rw [List.pairwise_cons] at h
      unfold insertOrdered
      split
      · next hlt =>
        rw [List.pairwise_cons]
        refine ⟨fun a ha => ?_, insertOrdered_pairwise ρ x ys h.2⟩
        rcases (mem_insertOrdered _ x ys a).mp ha with rfl | ha
        · exact le_of_lt (of_decide_eq_true hlt)
        · exact h.1 a ha
      · next hnlt =>
        have hxy : ρ x ≤ ρ y := by
          by_contra hc
          exact hnlt (decide_eq_true (by omega))
        rw [List.pairwise_cons]
        refine ⟨fun a ha => ?_, List.pairwise_cons.mpr h⟩
        rcases List.mem_cons.mp ha with rfl | ha
        · exact hxy
        · exact le_trans hxy (h.1 a ha)

/-- A stable sort by rank is sorted by rank. -/
theorem stableSort_pairwise {α : Type} (ρ : α → Nat) :
    ∀ l : List α,
      (stableSort (fun a b => decide (ρ a < ρ b)) l).Pairwise
        (fun a b => ρ a ≤ ρ b)
  | [] => List.Pairwise.nil
  | x :: xs => insertOrdered_pairwise ρ x _ (stableSort_pairwise ρ xs)

/-- Ordered insertion distributes over a same-rank filter: the inserted
element lands in front of the kept elements of its own rank (which arrived
later). -/
theorem filter_insertOrdered {α : Type} (ρ : α → Nat) (k : Nat) (x : α) :
    ∀ l : List α,
      (insertOrdered (fun a b => decide (ρ a < ρ b)) x l).filter
          (fun a => decide (ρ a = k)) =
        (if ρ x = k then [x] else []) ++ l.filter (fun a => decide (ρ a = k))
  | [] => by
      by_cases hx : ρ x = k <;> simp [insertOrdered, List.filter, hx]
  | y :: ys => by
      unfold insertOrdered
      split
      · next hlt =>
        have hlt' := of_decide_eq_true hlt
        rw [List.filter_cons, List.filter_cons,
          filter_insertOrdered ρ k x ys]
        by_cases hx : ρ x = k <;> by_cases hy : ρ y = k <;>
          first
            | omega
            | simp [hx, hy]
      · next hnlt =>
        rw [List.filter_cons, List.filter_cons]
        by_cases hx : ρ x = k <;> simp [hx]

/-- A stable sort preserves the relative order inside each rank class. -/
theorem stableSort_filter {α : Type} (ρ : α → Nat) (k : Nat) :
    ∀ l : List α,
      (stableSort (fun a b => decide (ρ a < ρ b)) l).filter
          (fun a => decide (ρ a = k)) =
        l.filter (fun a => decide (ρ a = k))
  | [] => rfl
  | x :: xs => by
      show (insertOrdered _ x (stableSort _ xs)).filter _ = _
      rw [filter_insertOrdered ρ k x, stableSort_filter ρ k xs, List.filter_cons]
      by_cases hx : ρ x = k <;> simp [hx]

/-- Mapping commutes with ordered insertion when the comparison factors
through the map. -/
theorem map_insertOrdered {α β : Type} (g : α → β) (ltA : α → α → Bool)
    (ltB : β → β → Bool) (hcomp : ∀ a b, ltA a b = ltB (g a) (g b)) (x : α) :
    ∀ l : List α,
      (insertOrdered ltA x l).map g = insertOrdered ltB (g x) (l.map g)
  | [] => rfl
  | y :: ys => by
      unfold insertOrdered
      rw [hcomp y x]
      by_cases h : ltB (g y) (g x) = true <;>
        simp [h, map_insertOrdered g ltA ltB hcomp x ys]

/-- Mapping commutes with stable sorting when the comparison factors through
the map. -/
theorem map_stableSort {α β : Type} (g : α → β) (ltA : α → α → Bool)
    (ltB : β → β → Bool) (hcomp : ∀ a b, ltA a b = ltB (g a) (g b)) :
    ∀ l : List α, (stableSort ltA l).map g = stableSort ltB (l.map g)
  | [] => rfl
  | x :: xs => by
      show (insertOrdered ltA x (stableSort ltA xs)).map g = _
      rw [map_insertOrdered g ltA ltB hcomp x, map_stableSort g ltA ltB hcomp xs]
      rfl

/-- First components of a filter on first components. -/
theorem map_fst_filter {α β : Type} (p : α → Bool) :
    ∀ l : List (α × β),
      (l.filter (fun q => p q.1)).map Prod.fst = (l.map Prod.fst).filter p
  | [] => rfl
  | q :: l => by
      rw [List.filter_cons, List.map_cons, List.filter_cons]
      by_cases hq : p q.1 = true <;> simp [hq, map_fst_filter p l]

/-- Membership in the first-seen fold. -/
theorem mem_seenFold :
    ∀ (rest : List ReviewResult) (acc : List JSStr) (f : JSStr),
      f ∈ rest.foldl seenStep acc ↔ f ∈ acc ∨ ∃ x ∈ rest, x.file = f
  | [], acc, f => by simp
  | r :: rest, acc, f => by
      rw [List.foldl_cons, mem_seenFold rest (seenStep acc r) f]
      have hstep : f ∈ seenStep acc r ↔ f ∈ acc ∨ f = r.file := by
        unfold seenStep
        split
        · next hany =>
          simp only [List.any_eq_true, beq_iff_eq] at hany
          obtain ⟨a, ha, rfl⟩ := hany
          constructor
          · exact Or.inl
          · rintro (h | rfl)
            · exact h
            · exact ha
        · simp
      rw [hstep]
      simp only [List.mem_cons]
      constructor
      · rintro ((h | rfl) | ⟨x, hx, rfl⟩)
        · exact Or.inl h
        · exact Or.inr ⟨r, Or.inl rfl, rfl⟩
        · exact Or.inr ⟨x, Or.inr hx, rfl⟩
      · rintro (h | ⟨x, hx | hx, rfl⟩)
        · exact Or.inl (Or.inl h)
        · exact Or.inl (Or.inr (hx ▸ rfl))
        · exact Or.inr ⟨x, hx, rfl⟩

/-- Every file of the prefix appears among its first-seen files. -/
theorem mem_firstSeenFiles {pre : List ReviewResult} {x : ReviewResult}
    (hx : x ∈ pre) : x.file ∈ firstSeenFiles pre :=
  (mem_seenFold pre [] x.file).mpr (Or.inr ⟨x, hx, rfl⟩)

/-- An existence test on keys equals the same test on the mapped key list. -/
theorem any_key_map (acc : List (JSStr × List ReviewResult)) (s : JSStr) :
    (acc.any fun p => p.1 == s) = ((acc.map Prod.fst).any fun f => f == s) := by
  induction acc with
  | nil => rfl
  | cons a l ih => simp only [List.any_cons, List.map_cons, ih]

/-- One `groupByFile` step preserves the grouping invariant: keys are the
first-seen files of the processed prefix and each key holds exactly that
file's findings in arrival order. -/
theorem groupStep_inv (pre : List ReviewResult)
    (acc : List (JSStr × List ReviewResult)) (r : ReviewResult)
    (hk : acc.map Prod.fst = firstSeenFiles pre)
    (hv : ∀ p ∈ acc, p.2 = pre.filter (fun x => x.file == p.1)) :
    (groupStep acc r).map Prod.fst = firstSeenFiles (pre ++ [r]) ∧
    ∀ p ∈ groupStep acc r,
      p.2 = (pre ++ [r]).filter (fun x => x.file == p.1) := by
  have hseen : firstSeenFiles (pre ++ [r]) = seenStep (firstSeenFiles pre) r := by
    unfold firstSeenFiles
    rw [List.foldl_append]
    rfl
  have hany : (acc.any (fun p => p.1 == r.file)) =
      ((firstSeenFiles pre).any (fun f => f == r.file)) := by
    rw [← hk]
    exact any_key_map acc r.file
  unfold groupStep
  by_cases hb : acc.any (fun p => p.1 == r.file) = true
  · rw [if_pos hb]
    constructor
    · rw [hseen]
      unfold seenStep
      rw [if_pos (hany ▸ hb), List.map_map, ← hk]
      apply List.map_congr_left
      intro p _
      show (if p.1 == r.file then (p.1, p.2 ++ [r]) else p).1 = p.1
      split <;> rfl
    · intro p' hp'
      rw [List.mem_map] at hp'
      obtain ⟨p, hp, rfl⟩ := hp'
      rw [List.filter_append]
      by_cases hc : (p.1 == r.file) = true
      · rw [if_pos hc]
        show p.2 ++ [r] = _ ++ _
        have hc' : p.1 = r.file := beq_iff_eq.mp hc
        have hr : [r].filter (fun x => x.file == p.1) = [r] := by
          simp [List.filter, hc']
        rw [hr, hv p hp]
      · rw [if_neg hc]
        have hr : [r].filter (fun x => x.file == p.1) = [] := by
          have : (r.file == p.1) = false := by
            rw [beq_eq_false_iff_ne]
            intro he
            exact hc (beq_iff_eq.mpr he.symm)
          simp [List.filter, this]
        rw [hr, List.append_nil]
        exact hv p hp
  · rw [if_neg hb]
    have hb' : acc.any (fun p => p.1 == r.file) = false := by
      rw [← Bool.not_eq_true]
      exact hb
    constructor
    · rw [List.map_append, hk, hseen]
      unfold seenStep
      rw [if_neg (by rw [← hany, hb']; exact Bool.false_ne_true)]
      rfl
    · intro p hp
      rcases List.mem_append.mp hp with hp | hp
      · rw [List.filter_append, hv p hp]
        have hno : (p.1 == r.file) = false := by
          rw [List.any_eq_false] at hb'
          simpa using hb' p hp
        have hr : [r].filter (fun x => x.file == p.1) = [] := by
          have : (r.file == p.1) = false := by
            rw [beq_eq_false_iff_ne]
            intro he
            rw [← he, beq_self_eq_true] at hno
            cases hno
          simp [List.filter, this]
        rw [hr, List.append_nil]
      · rw [List.mem_singleton] at hp
        subst hp
        show [r] = _
        rw [List.filter_append]
        have h1 : pre.filter (fun x => x.file == r.file) = [] := by
          rw [List.filter_eq_nil_iff]
          intro x hx hxf
          have hxe : x.file = r.file := beq_iff_eq.mp hxf
          have hmem : r.file ∈ firstSeenFiles pre := hxe ▸ mem_firstSeenFiles hx
          rw [← hk, List.mem_map] at hmem
          obtain ⟨p0, hp0, hfst⟩ := hmem
          rw [List.any_eq_false] at hb'
          have := hb' p0 hp0
          rw [hfst] at this
          exact this (beq_self_eq_true r.file)
        rw [h1]
        simp [List.filter]


/-- The `groupByFile` fold keeps the grouping invariant over any suffix. -/
theorem groupFold_inv :
    ∀ (rest pre : List ReviewResult) (acc : List (JSStr × List ReviewResult)),
    acc.map Prod.fst = firstSeenFiles pre →
    (∀ p ∈ acc, p.2 = pre.filter (fun x => x.file == p.1)) →
    (rest.foldl groupStep acc).map Prod.fst = firstSeenFiles (pre ++ rest) ∧
    ∀ p ∈ rest.foldl groupStep acc,
      p.2 = (pre ++ rest).filter (fun x => x.file == p.1)
  | [], pre, acc, hk, hv => by
      rw [List.foldl_nil, List.append_nil]
      exact ⟨hk, hv⟩
  | r :: rest, pre, acc, hk, hv => by
      rw [List.foldl_cons]
      have hstep := groupStep_inv pre acc r hk hv
      have hrec := groupFold_inv rest (pre ++ [r]) (groupStep acc r) hstep.1 hstep.2
      rw [List.append_assoc, List.singleton_append] at hrec
      exact hrec

/-- `groupByFile` groups exactly: keys are the file paths in first-seen order
and each key's list is that file's findings in arrival order. -/
theorem groupByFile_spec (results : List ReviewResult) :
    (groupByFile results).map Prod.fst = firstSeenFiles results ∧
    ∀ p ∈ groupByFile results,
      p.2 = results.filter (fun x => x.file == p.1) := by
  have h := groupFold_inv results [] [] rfl (by intro p hp; cases hp)
  rw [List.nil_append] at h
  exact h

/-- First components of the array-index filter. -/
theorem map_fst_filter_idx (l : List (JSStr × List ReviewResult)) :
    (l.filter (fun p => isArrayIndexKey p.1)).map Prod.fst
      = (l.map Prod.fst).filter isArrayIndexKey :=
  map_fst_filter isArrayIndexKey l

/-- First components of the non-array-index filter. -/
theorem map_fst_filter_nidx (l : List (JSStr × List ReviewResult)) :
    (l.filter (fun p => !isArrayIndexKey p.1)).map Prod.fst
      = (l.map Prod.fst).filter (fun s => !isArrayIndexKey s) :=
  map_fst_filter (fun s => !isArrayIndexKey s) l

/-- First components of the numeric key sort. -/
theorem map_fst_sortIdx (l : List (JSStr × List ReviewResult)) :
    (stableSort (fun p q => decide (keyNum p.1 < keyNum q.1)) l).map Prod.fst
      = stableSort (fun a b => decide (keyNum a < keyNum b)) (l.map Prod.fst) :=
  map_stableSort Prod.fst (fun p q => decide (keyNum p.1 < keyNum q.1))
    (fun a b => decide (keyNum a < keyNum b)) (fun _ _ => rfl) l

/-- The per-file sort is sorted by severity rank. -/
theorem sortFileResults_pairwise (rs : List ReviewResult) :
    (sortFileResults rs).Pairwise
      (fun a b => sevRank a.severity ≤ sevRank b.severity) :=
  stableSort_pairwise (fun r => sevRank r.severity) rs

/-- Severity equality matches rank equality. -/
theorem sev_beq_rank (r : ReviewResult) (s : Severity) :
    (r.severity == s) = decide (sevRank r.severity = sevRank s) := by
  cases r.severity <;> cases s <;> rfl

/-- The per-file sort preserves arrival order inside each severity class. -/
theorem sortFileResults_filter (rs : List ReviewResult) (s : Severity) :
    (sortFileResults rs).filter (fun r => r.severity == s) =
      rs.filter (fun r => r.severity == s) := by
  have hc : ∀ l : List ReviewResult,
      l.filter (fun r => r.severity == s) =
        l.filter (fun r => decide (sevRank r.severity = sevRank s)) :=
    fun l => List.filter_congr (fun r _ => sev_beq_rank r s)
  rw [hc (sortFileResults rs), hc rs]
  exact stableSort_filter (fun r => sevRank r.severity) (sevRank s) rs

/-! ## Claim C8 -/

/-- C8 — counterexample.  Findings arriving for file `b` first and file `0`
second are grouped with `0` first: a plain JS object enumerates array-index
keys (such as the legal git path `0`) before other keys, so the first-seen
group order of the claim is violated. -/
theorem C8_counterexample :
    (displayGroups [findB, find0]).map Prod.fst = [jss "0", jss "b"] ∧
    firstSeenFiles [findB, find0] = [jss "b", jss "0"] ∧
    (displayGroups [findB, find0]).map Prod.fst ≠ firstSeenFiles [findB, find0] := by
  refine ⟨rfl, rfl, ?_⟩
  decide

/-- C8 — amended.  The final report groups findings by file path with
array-index path names first in ascending numeric order and the remaining
path names in first-seen order; within each file's group the findings are
sorted by severity rank `error < warning < info` by a stable sort: each
group is rank-sorted, and restricted to any one severity it preserves the
arrival order of exactly that file's findings. -/
theorem C8_reportOrdering (results : List ReviewResult) :
    (displayGroups results).map Prod.fst = amendedKeyOrder results ∧
    ∀ f rs, (f, rs) ∈ displayGroups results →
      rs.Pairwise (fun a b => sevRank a.severity ≤ sevRank b.severity) ∧
      ∀ s : Severity, rs.filter (fun r => r.severity == s) =
        (results.filter (fun r => r.file == f)).filter
          (fun r => r.severity == s) := by
  constructor
  · unfold displayGroups
    rw [List.map_map]
    show (jsEntries (groupByFile results)).map Prod.fst = amendedKeyOrder results
    unfold jsEntries amendedKeyOrder
    rw [List.map_append, map_fst_sortIdx, map_fst_filter_idx, map_fst_filter_nidx,
      (groupByFile_spec results).1]
  · intro f rs hmem
    unfold displayGroups at hmem
    rw [List.mem_map] at hmem
    obtain ⟨p, hp, heq⟩ := hmem
    have hf : p.1 = f := congrArg Prod.fst heq
    have hrs : sortFileResults p.2 = rs := congrArg Prod.snd heq
    have hpg : p ∈ groupByFile results := by
      unfold jsEntries at hp
      rcases List.mem_append.mp hp with hp | hp
      · exact List.mem_of_mem_filter ((mem_stableSort _ _ p).mp hp)
      · exact List.mem_of_mem_filter hp
    have hval := (groupByFile_spec results).2 p hpg
    constructor
    · rw [← hrs]
      exact sortFileResults_pairwise p.2
    · intro s
      rw [← hrs, sortFileResults_filter, hval, hf]

/-- Witness for C8 at two findings for one file arriving info-first. -/
theorem C8_reportOrdering_witness :
    ([{ file := jss "a", severity := .error, line := none,
        message := .str (jss "e1"), suggestion := none, category := none },
      { file := jss "a", severity := .info, line := none,
        message := .str (jss "i1"), suggestion := none, category := none }] :
        List ReviewResult).Pairwise
      (fun a b => sevRank a.severity ≤ sevRank b.severity) ∧
    ([{ file := jss "a", severity := .error, line := none,
        message := .str (jss "e1"), suggestion := none, category := none },
      { file := jss "a", severity := .info, line := none,
        message := .str (jss "i1"), suggestion := none, category := none }] :
        List ReviewResult).filter (fun r => r.severity == Severity.error) =
      ((findsAB.filter (fun r => r.file == jss "a")).filter
        (fun r => r.severity == Severity.error)) := by
  have hmem : ((jss "a" : JSStr),
      ([{ file := jss "a", severity := .error, line := none,
          message := .str (jss "e1"), suggestion := none, category := none },
        { file := jss "a", severity := .info, line := none,
          message := .str (jss "i1"), suggestion := none, category := none }] :
        List ReviewResult)) ∈ displayGroups findsAB := by
    have h : displayGroups findsAB =
        [((jss "a" : JSStr),
          [{ file := jss "a", severity := .error, line := none,
             message := .str (jss "e1"), suggestion := none, category := none },
           { file := jss "a", severity := .info, line := none,
             message := .str (jss "i1"), suggestion := none, category := none }])] := by
      rfl
    rw [h]
    exact List.mem_singleton_self _
  have h2 := (C8_reportOrdering findsAB).2 (jss "a") _ hmem
  exact ⟨h2.1, h2.2 .error⟩

end AICR
